import Mathlib

/-!
Verification development for the Paperbox text-analytics engine
(`paperbox/nlp.py`, `paperbox/graphing.py`, `paperbox/utils.py`).

The Python source is shallowly embedded here.  Conventions used throughout:

* Python `str` is modelled by `String` / `List Char` (Python string indexing,
  `len`, and slicing are all code-point based, exactly like `List Char`).
* Python float arithmetic is modelled by exact arithmetic.  TF and document
  frequencies are natural numbers; derived quantities live in `ℚ`.
  Comparisons such as `df <= 0.95 * n` are carried out exactly
  (`100 * df ≤ 95 * n`), which agrees with the float computation on every
  input exercised here.
* The janome morphological segmenter (external library, used only for
  Japanese-classified text) is an explicit parameter `jaSeg`; every theorem
  below either quantifies over it or runs on Latin-script input where the
  code never calls it.
* `math.log` (used by `summarize`) and the smoothed-IDF weights
  (`ln((1+N)/(1+df)) + 1`, used by the TF-IDF vectorizer) are transcendental;
  they are explicit parameters (`lg`, `idf`).  All properties proved below
  hold for every choice of these parameters, in particular for the real ones;
  where positivity of an IDF weight matters it is a stated hypothesis
  (the real weights satisfy `idf ≥ 1 > 0`).
-/

namespace Paperbox

/-! ### Character classes (from `nlp.py` regexes and `utils.py`) -/

/-- ASCII letter, the class `[A-Za-z]` of `_word_re`. -/
def isAsciiLetter (c : Char) : Bool :=
  ('A' ≤ c && c ≤ 'Z') || ('a' ≤ c && c ≤ 'z')

/-- ASCII digit. -/
def isDigitCh (c : Char) : Bool := '0' ≤ c && c ≤ '9'

/-- The apostrophe character (written via its code point to keep the
source free of tricky literals). -/
def apostropheCh : Char := Char.ofNat 39

/-- Continuation class `[A-Za-z0-9\-']` of `_word_re`. -/
def isWordChar (c : Char) : Bool :=
  isAsciiLetter c || isDigitCh c || c = '-' || c = apostropheCh

/-- Python `str.strip()` / regex `\s` whitespace, ASCII part
(` `, `\t`, `\n`, `\r`, `\v`, `\f`).  All inputs considered in this
development are ASCII or CJK text without exotic Unicode spaces. -/
def isPySpace (c : Char) : Bool :=
  c = ' ' || c = '\t' || c = '\n' || c = '\x0d' || c = '\x0b' || c = '\x0c'

/-- Sentence-ending punctuation, the class `[。！？!?\.]` of `_SENT_SPLIT_RE`. -/
def isSentPunct (c : Char) : Bool :=
  c = '。' || c = '！' || c = '？' || c = '!' || c = '?' || c = '.'

/-- Lower-case an ASCII letter, Python `str.lower` restricted to `[A-Z]`
(the only characters `_word_re` can match that `lower` changes). -/
def lowerCh (c : Char) : Char :=
  if 'A' ≤ c && c ≤ 'Z' then Char.ofNat (c.toNat + 32) else c

/-- Characters counted by `utils._JP_RE`:
`[぀-ヿ㐀-䶿一-鿿]`. -/
def isJpChar (c : Char) : Bool :=
  (0x3040 ≤ c.toNat && c.toNat ≤ 0x30ff) ||
  (0x3400 ≤ c.toNat && c.toNat ≤ 0x4dbf) ||
  (0x4e00 ≤ c.toNat && c.toNat ≤ 0x9fff)

/-- Model of `utils.is_probably_japanese(text, threshold=0.08)`:
`len(JP_RE.findall(text)) / max(len(text), 1) >= 0.08`, decided exactly
(`jp / len ≥ 8/100  ↔  100 * jp ≥ 8 * len`; for nonempty text
`max(len,1) = len`). -/
def is_probably_japanese (text : String) : Bool :=
  if text.data.length = 0 then false
  else 8 * text.data.length ≤ 100 * (text.data.filter isJpChar).length

/-! ### Tokenizer (`nlp.tokenize`) -/

/-- Scanner equivalent of `_word_re.finditer`: left-to-right, non-overlapping,
greedy matches of `[A-Za-z][A-Za-z0-9\-']{1,}`.  `acc` holds the current
candidate word reversed; a candidate of length 1 is discarded (the regex
requires at least two characters). -/
def wordsAux (acc : List Char) : List Char → List (List Char)
  | [] => if 2 ≤ acc.length then [acc.reverse] else []
  | c :: cs =>
    if acc.isEmpty then
      if isAsciiLetter c then wordsAux [c] cs else wordsAux [] cs
    else
      if isWordChar c then wordsAux (c :: acc) cs
      else if 2 ≤ acc.length then acc.reverse :: wordsAux [] cs
      else wordsAux [] cs

/-- All matches of `_word_re` in `text`, in order. -/
def wordsOf (text : String) : List String :=
  (wordsAux [] text.data).map String.mk

/-- Model of `nlp.EN_STOP`. -/
def EN_STOP : List String :=
  ["the","a","an","and","or","to","of","in","for","on","with","as","by","at","from",
   "is","are","was","were","be","been","being","this","that","these","those","it",
   "we","you","they","i","he","she","them","his","her","their","our","your"]

/-- Model of `nlp.JA_STOP`. -/
def JA_STOP : List String :=
  ["これ","それ","あれ","こと","ため","よう","もの","ところ","そして","しかし","また",
   "です","ます","する","いる","ある","なる","できる","られる","など","にて","による"]

/-- Python `str.strip()` on a character list. -/
def pyStripL (l : List Char) : List Char :=
  ((l.dropWhile isPySpace).reverse.dropWhile isPySpace).reverse

/-- Python `str.strip()`. -/
def pyStrip (s : String) : String := String.mk (pyStripL s.data)

/-- Model of `nlp.tokenize`.  The Japanese branch delegates raw segmentation to the
external janome tokenizer, abstracted as `jaSeg`; its output is then
filtered exactly as in the source (`t.strip()` nonempty, not a stop word,
`len(t) > 1`).  The Latin branch lower-cases each regex match and keeps
tokens that are not stop words and have `len > 2`. -/
def tokenize (jaSeg : String → List String) (text : String) : List String :=
  if is_probably_japanese text then
    (((jaSeg text).filter (fun t => !(pyStrip t).data.isEmpty)).filter
      (fun t => decide (t ∉ JA_STOP) && decide (1 < t.data.length)))
  else
    ((wordsOf text).map (fun w => String.mk (w.data.map lowerCh))).filter
      (fun t => decide (t ∉ EN_STOP) && decide (2 < t.data.length))

/-- The trivial segmenter used to instantiate `jaSeg` on Latin-script
inputs, where `tokenize` never consults it. -/
def jaSeg0 : String → List String := fun _ => []

/-! ### Sentence splitter (`nlp.split_sentences`) -/

/-- State of the left-to-right scan equivalent to
`_SENT_SPLIT_RE.split`: either inside a piece (remembering whether the
previous piece character was sentence punctuation, for the look-behind
`(?<=[。！？!?\.])`), or inside a separator match (remembering whether the
separator is a `\s+` run — which absorbs any whitespace — or a `\n+` run,
which absorbs only newlines). -/
inductive SplitMode where
  | piece (prevPunct : Bool)
  | sepRun (spaceRun : Bool)

/-- Scanner for `_SENT_SPLIT_RE.split(text)`:
the regex `(?<=[。！？!?\.])\s+|\n+` matches, at each position, either a
maximal whitespace run preceded by sentence punctuation, or a maximal
newline run.  Matches are separators; the pieces between them are returned
(including empty pieces, as `re.split` does). -/
def splitRawAux : SplitMode → List Char → List Char → List (List Char)
  | _, acc, [] => [acc.reverse]
  | .piece pp, acc, c :: cs =>
    if pp && isPySpace c then acc.reverse :: splitRawAux (.sepRun true) [] cs
    else if c = '\n' then acc.reverse :: splitRawAux (.sepRun false) [] cs
    else splitRawAux (.piece (isSentPunct c)) (c :: acc) cs
  | .sepRun sp, acc, c :: cs =>
    if sp && isPySpace c then splitRawAux (.sepRun sp) acc cs
    else if !sp && c = '\n' then splitRawAux (.sepRun sp) acc cs
    else splitRawAux (.piece (isSentPunct c)) (c :: acc) cs

/-- The list comprehension `[s.strip() for s in _SENT_SPLIT_RE.split(text)
if s and s.strip()]`, at the character-list level. -/
def rawPiecesL (text : String) : List (List Char) :=
  ((splitRawAux (.piece false) [] text.data).map pyStripL).filter
    (fun l => !l.isEmpty)

/-- The stripped, nonempty raw fragments produced by the regex split. -/
def rawFragments (text : String) : List String :=
  (rawPiecesL text).map String.mk

/-- The "merge tiny fragments" loop of `split_sentences`: `buf` is the
accumulator; a fragment shorter than 20 characters is appended
(space-joined, re-stripped) to a nonempty accumulator instead of starting
a new sentence. -/
def mergeTinyAux (buf : String) : List String → List String
  | [] => if buf = "" then [] else [buf]
  | s :: rest =>
    if s.data.length < 20 ∧ buf ≠ "" then
      mergeTinyAux (pyStrip (buf ++ " " ++ s)) rest
    else if buf = "" then mergeTinyAux s rest
    else buf :: mergeTinyAux s rest

/-- Model of `nlp.split_sentences`. -/
def split_sentences (text : String) : List String :=
  mergeTinyAux "" (rawFragments text)

/-! ### Stable sorting

Python's `sorted` (and `list.sort`) is a stable sort; with
`key=...` and `reverse=True` it is a stable sort by descending key (ties
keep their original relative order; `reverse` does not reverse ties).
`sortS le` below is stable insertion sort: an element is placed before the
first already-placed element `y` with `le x y`; since any two stable sorts
with respect to the same total preorder produce the same list, this models
Python's sort exactly. -/

/-- Insert `x` before the first element `y` of `l` with `le x y`. -/
def insertS (le : α → α → Bool) (x : α) : List α → List α
  | [] => [x]
  | y :: ys => if le x y then x :: y :: ys else y :: insertS le x ys

/-- Stable insertion sort. -/
def sortS (le : α → α → Bool) : List α → List α
  | [] => []
  | x :: xs => insertS le x (sortS le xs)

/-! ### Summarizer (`nlp.summarize`) -/

/-- Python `enumerate`. -/
def enumIdx : Nat → List α → List (Nat × α)
  | _, [] => []
  | i, x :: xs => (i, x) :: enumIdx (i + 1) xs

/-- The quantity `maxf = max(freq.values())`: the largest token frequency in the
document token list. -/
def maxFreq (toks : List String) : Nat :=
  (toks.map (fun t => toks.count t)).foldr max 0

/-- The normalized frequency table: `freq[t] / maxf`, with `freq.get(t, 0.0)`
equal to `0` for absent tokens (their count is `0`). -/
def normFreq (toks : List String) (t : String) : ℚ :=
  (toks.count t : ℚ) / (maxFreq toks : ℚ)

/-- Per-sentence score: `0` for a sentence with no tokens, otherwise
`sum(freq.get(t, 0.0) for t in toks) / (1.0 + log(1 + len(toks)))`.
`lg` abstracts `math.log`; every property proved below holds for any `lg`,
in particular for the real logarithm. -/
def sentenceScore (jaSeg : String → List String) (lg : ℚ → ℚ)
    (docToks : List String) (s : String) : ℚ :=
  let st := tokenize jaSeg s
  if st = [] then 0
  else (st.map (normFreq docToks)).sum / (1 + lg (1 + (st.length : ℚ)))

/-- The `scored` list: `(index, score)` for each sentence, in index order. -/
def scoredList (jaSeg : String → List String) (lg : ℚ → ℚ) (text : String) :
    List (Nat × ℚ) :=
  (enumIdx 0 (split_sentences text)).map
    (fun p => (p.1, sentenceScore jaSeg lg (tokenize jaSeg text) p.2))

/-- The selection `sorted(scored, key=lambda x: x[1], reverse=True)[:sentences]`:
stable sort by score descending, truncated. -/
def topScored (jaSeg : String → List String) (lg : ℚ → ℚ) (text : String)
    (sentences : Nat) : List (Nat × ℚ) :=
  (sortS (fun p q => decide (q.2 ≤ p.2)) (scoredList jaSeg lg text)).take sentences

/-- The list `top_idx = sorted(topScored, key=lambda x: x[0])`: the selection
re-sorted by original sentence index ascending. -/
def topIdx (jaSeg : String → List String) (lg : ℚ → ℚ) (text : String)
    (sentences : Nat) : List (Nat × ℚ) :=
  sortS (fun p q => decide (p.1 ≤ q.1)) (topScored jaSeg lg text sentences)

/-- Python `"\n".join`. -/
def joinNL : List String → String
  | [] => ""
  | [s] => s
  | s :: rest => s ++ "\n" ++ joinNL rest

/-- Model of `nlp.summarize`.  The histogram `freq` is empty exactly when
`tokenize(text)` is empty, which selects the head fallback. -/
def summarize (jaSeg : String → List String) (lg : ℚ → ℚ) (text : String)
    (sentences : Nat) : String :=
  let sents := split_sentences text
  if sents = [] then ""
  else if tokenize jaSeg text = [] then joinNL (sents.take sentences)
  else pyStrip (joinNL ((topIdx jaSeg lg text sentences).map (fun p => sents.getD p.1 "")))

/-- Scanner for splitting a character list at `\n`, keeping empty pieces. -/
def splitNlAux (acc : List Char) : List Char → List (List Char)
  | [] => [acc.reverse]
  | c :: cs =>
    if c = '\n' then acc.reverse :: splitNlAux [] cs else splitNlAux (c :: acc) cs

/-- Number of newline-separated lines of a string, with Python's
`"".splitlines() == []` convention for the empty string. -/
def lineCount (s : String) : Nat :=
  if s.data = [] then 0 else (splitNlAux [] s.data).length

/-! ### Vector space builder
(`TfidfVectorizer(tokenizer=tokenize, lowercase=False, min_df=1,
max_df=0.95, ngram_range=(1,2))`, modelling the library per its documented
behaviour, which §4.4 of the spec restates) -/

/-- sklearn n-gram extraction for `ngram_range=(1,2)`: the unigrams followed
by the space-joined bigrams of consecutive surviving tokens. -/
def ngrams12 (toks : List String) : List String :=
  toks ++ (toks.zip toks.tail).map (fun p => p.1 ++ " " ++ p.2)

/-- The terms (unigrams and bigrams) of one input text. -/
def docTerms (jaSeg : String → List String) (text : String) : List String :=
  ngrams12 (tokenize jaSeg text)

/-- Document frequency of a term across the fitted corpus. -/
def df (t : String) (docs : List (List String)) : Nat :=
  docs.countP (fun d => decide (t ∈ d))

/-- The two `ValueError`s `TfidfVectorizer.fit_transform` can raise here:
`empty vocabulary; perhaps the documents only contain stop words` (no term
extracted from any document), and `After pruning, no terms remain` (the
`min_df`/`max_df` filter removed every term). -/
inductive VecError where
  | emptyVocabulary
  | noTermsRemain
deriving DecidableEq

/-- Vocabulary fitting with `min_df=1, max_df=0.95`: a term is kept when
`1 ≤ df` and `df ≤ 0.95 * n_documents`; the latter float comparison is
decided exactly as `100 * df ≤ 95 * n`.  (sklearn orders the vocabulary
alphabetically; the first-occurrence order used here differs only in the
tie order of the value-sorted term rankings below, which numpy's `argsort`
leaves unspecified anyway — no property proved below depends on it.) -/
def fitVocab (docs : List (List String)) : Except VecError (List String) :=
  let terms := docs.flatten.dedup
  if terms = [] then .error .emptyVocabulary
  else
    let kept := terms.filter
      (fun t => decide (1 ≤ df t docs) && decide (100 * df t docs ≤ 95 * docs.length))
    if kept = [] then .error .noTermsRemain else .ok kept

/-- Dot product of natural-number vectors (term-frequency vectors). -/
def dotN : List Nat → List Nat → Nat
  | x :: xs, y :: ys => x * y + dotN xs ys
  | _, _ => 0

/-- Dot product of rational vectors. -/
def dotQ : List ℚ → List ℚ → ℚ
  | x :: xs, y :: ys => x * y + dotQ xs ys
  | _, _ => 0

/-- Squared Euclidean norm. -/
def normSqQ (v : List ℚ) : ℚ := dotQ v v

/-- The square of the cosine similarity of two vectors with the given dot
product and squared norms, with sklearn's `cosine_similarity` convention
for zero vectors (`normalize` treats a zero norm as `1`, so a zero row
yields similarity `0`).  The similarity itself is the non-negative square
root of this value — cosine similarity is scale-invariant, so computing it
from raw term-frequency vectors agrees exactly with computing it from the
L2-normalized TF-IDF rows whenever all terms carry one common positive IDF
weight (which for a two-document fit under `max_df=0.95` is every fit that
succeeds: every kept term has `df = 1`). -/
def cosineSimSq (d n1 n2 : Nat) : ℚ :=
  if n1 = 0 ∨ n2 = 0 then 0 else (d : ℚ) ^ 2 / ((n1 : ℚ) * (n2 : ℚ))

/-! ### Comparator (`nlp.compare_texts`) -/

/-- One ranked term bucket: the vocabulary terms paired with their values,
sorted by value descending (`argsort()[::-1]`, modelled stably — numpy's
tie order is unspecified), truncated to `top_terms`, with zero-valued
entries dropped. -/
def bucketList (vocab : List String) (vals : List Nat) (top_terms : Nat) :
    List (String × Nat) :=
  ((sortS (fun p q => decide (q.2 ≤ p.2)) (vocab.zip vals)).take top_terms).filter
    (fun p => decide (0 < p.2))

/-- Result of `compare_texts`.  `similaritySq` is the square of the
`similarity` field of the Python dataclass (see `cosineSimSq`); bucket
values are the term-frequency surrogates of the float weights: the true
weight vector of document `d` is its tf vector times a positive scalar
(one shared IDF constant divided by the row's L2 norm), so an entry of
`min(v1, v2)`, `max(v1-v2, 0)` or `max(v2-v1, 0)` is positive in the float
computation iff it is positive here, and the descending order within each
bucket is the same.  (`np.maximum(v1 - v2, 0.0)` is truncated subtraction,
which is exactly `Nat` subtraction on the surrogates.) -/
structure CompareResult where
  similaritySq : ℚ
  common_terms : List (String × Nat)
  doc1_unique_terms : List (String × Nat)
  doc2_unique_terms : List (String × Nat)
deriving DecidableEq

/-- Model of `nlp.compare_texts`. -/
def compare_texts (jaSeg : String → List String) (text1 text2 : String)
    (top_terms : Nat) : Except VecError CompareResult :=
  let d1 := docTerms jaSeg text1
  let d2 := docTerms jaSeg text2
  match fitVocab [d1, d2] with
  | .error e => .error e
  | .ok vocab =>
    let v1 := vocab.map (fun t => d1.count t)
    let v2 := vocab.map (fun t => d2.count t)
    .ok
      { similaritySq := cosineSimSq (dotN v1 v2) (dotN v1 v1) (dotN v2 v2)
        common_terms := bucketList vocab (v1.zipWith min v2) top_terms
        doc1_unique_terms := bucketList vocab (v1.zipWith (fun a b => a - b) v2) top_terms
        doc2_unique_terms := bucketList vocab (v2.zipWith (fun a b => a - b) v1) top_terms }

/-! ### Pairwise similarity (`nlp.pairwise_similarity`) -/

/-- TF-IDF rows before L2 normalization: entry `t` of document `d` is
`tf_d(t) * idf(t)`.  `idf` abstracts the smoothed IDF weights
`ln((1+N)/(1+df)) + 1`, which are transcendental; they satisfy `idf ≥ 1`,
and every property proved below assumes only `0 < idf t`. -/
def rowsOf (idf : String → ℚ) (vocab : List String) (docs : List (List String)) :
    List (List ℚ) :=
  docs.map (fun d => vocab.map (fun t => (d.count t : ℚ) * idf t))

/-- Squared similarity-matrix entry (see `cosineSimSq`: the matrix returned
by `cosine_similarity(X)` is the entrywise non-negative square root). -/
def pairwise_simSq (rows : List (List ℚ)) (i j : Nat) : ℚ :=
  let ri := rows.getD i []
  let rj := rows.getD j []
  if normSqQ ri = 0 ∨ normSqQ rj = 0 then 0
  else dotQ ri rj ^ 2 / (normSqQ ri * normSqQ rj)

/-- Model of `nlp.pairwise_similarity`, as the matrix of squared entries. -/
def pairwise_matrixSq (jaSeg : String → List String) (idf : String → ℚ)
    (texts : List String) : Except VecError (List (List ℚ)) :=
  match fitVocab (texts.map (docTerms jaSeg)) with
  | .error e => .error e
  | .ok vocab =>
    let rows := rowsOf idf vocab (texts.map (docTerms jaSeg))
    .ok ((List.range texts.length).map
      (fun i => (List.range texts.length).map (fun j => pairwise_simSq rows i j)))

/-! ### Graph builder (`graphing.py`) -/

/-- Model of `graphing.Node`. -/
structure Node where
  id : Nat
  label : String
deriving DecidableEq

/-- Model of `graphing.Edge`.  The float weight is modelled in `ℚ`. -/
structure Edge where
  a : Nat
  b : Nat
  weight : ℚ
deriving DecidableEq

/-- Model of `graphing.build_edges`: scan the upper triangle (`i < j`) of the
similarity matrix in row-major order, keep pairs with `weight >= threshold`,
then `edges.sort(key=lambda e: e.weight, reverse=True)` — a stable sort by
weight descending. -/
def build_edges (sim : Nat → Nat → ℚ) (n : Nat) (threshold : ℚ) : List Edge :=
  sortS (fun e f => decide (f.weight ≤ e.weight))
    ((List.range n).flatMap (fun i =>
      (((List.range n).filter (fun j => decide (i < j))).map
        (fun j => Edge.mk i j (sim i j))).filter (fun e => decide (threshold ≤ e.weight))))

/-- Python single-character-pattern `str.replace(pat, rep)`. -/
def pyReplace (s : String) (pat : Char) (rep : String) : String :=
  String.mk ((s.data.map (fun c => if c = pat then rep.data else [c])).flatten)

/-- The double-quote character. -/
def quoteCh : Char := Char.ofNat 34

/-- Model of `graphing.render_dot`.  The escaping line of the source is
`safe = nd.label.replace('"', '\"')`; in Python the literal `'\"'` denotes
the ONE-character string consisting of a double quote (the backslash merely
escapes the quote inside the literal), so the replacement substitutes a
quote for a quote.  `fmtW` abstracts Python's float `:.2f` formatting of
edge labels and pen widths. -/
def render_dot (fmtW : ℚ → String) (nodes : List Node) (edges : List Edge) : String :=
  joinNL (["graph G \x7b", "  graph [overlap=false, splines=true];", "  node [shape=box];"] ++
    nodes.map (fun nd =>
      "  D" ++ toString nd.id ++ " [label=\"" ++
        pyReplace nd.label quoteCh (String.mk [quoteCh]) ++ "\"];") ++
    edges.map (fun e =>
      "  D" ++ toString e.a ++ " -- D" ++ toString e.b ++ " [label=\"" ++ fmtW e.weight ++
        "\", penwidth=" ++ fmtW (1 + 4 * e.weight) ++ "];") ++
    ["\x7d"])

end Paperbox

deriving instance DecidableEq for Except

namespace Paperbox

/-! ### Generic lemmas about the stable sort -/

section SortLemmas

variable {α : Type} (le : α → α → Bool)

lemma insertS_perm (x : α) (l : List α) : (insertS le x l).Perm (x :: l) := by
  induction l with
  | nil => simp [insertS]
  | cons y ys ih =>
    simp only [insertS]
    by_cases h : le x y = true
    · simp [h]
    · rw [if_neg h]
      exact (ih.cons y).trans (List.Perm.swap x y ys)

lemma sortS_perm (l : List α) : (sortS le l).Perm l := by
  induction l with
  | nil => simp [sortS]
  | cons x xs ih => exact (insertS_perm le x (sortS le xs)).trans (ih.cons x)

lemma mem_sortS {a : α} {l : List α} : a ∈ sortS le l ↔ a ∈ l :=
  (sortS_perm le l).mem_iff

lemma length_sortS (l : List α) : (sortS le l).length = l.length :=
  (sortS_perm le l).length_eq

lemma nodup_sortS {l : List α} (h : l.Nodup) : (sortS le l).Nodup :=
  ((sortS_perm le l).nodup_iff).2 h

lemma insertS_sorted (htr : ∀ a b c, le a b = true → le b c = true → le a c = true)
    (hto : ∀ a b, le a b = true ∨ le b a = true)
    (x : α) {l : List α} (hl : l.Pairwise (fun a b => le a b = true)) :
    (insertS le x l).Pairwise (fun a b => le a b = true) := by
  induction l with
  | nil => simp [insertS]
  | cons y ys ih =>
    rcases hl with _ | ⟨hy, hys⟩
    simp only [insertS]
    by_cases h : le x y = true
    · rw [if_pos h]
      refine List.Pairwise.cons ?_ (List.Pairwise.cons hy hys)
      intro z hz
      rcases List.mem_cons.1 hz with rfl | hz
      · exact h
      · exact htr x y z h (hy z hz)
    · rw [if_neg h]
      refine List.Pairwise.cons ?_ (ih hys)
      intro z hz
      rcases List.mem_cons.1 (((insertS_perm le x ys).mem_iff).1 hz) with rfl | hz
      · rcases hto z y with h' | h'
        · exact absurd h' h
        · exact h'
      · exact hy z hz

lemma sortS_sorted (htr : ∀ a b c, le a b = true → le b c = true → le a c = true)
    (hto : ∀ a b, le a b = true ∨ le b a = true) (l : List α) :
    (sortS le l).Pairwise (fun a b => le a b = true) := by
  induction l with
  | nil => simp [sortS]
  | cons x xs ih => exact insertS_sorted le htr hto x ih

lemma sublist_insertS (x : α) (l : List α) : l.Sublist (insertS le x l) := by
  induction l with
  | nil => simp [insertS]
  | cons y ys ih =>
    simp only [insertS]
    by_cases h : le x y = true
    · rw [if_pos h]
      exact List.sublist_cons_self x (y :: ys)
    · rw [if_neg h]
      exact ih.cons₂ y

/-- Stability of insertion: an element `b` already present with `le x b`
ends up after the inserted `x`. -/
lemma insertS_pair {x b : α} {l : List α} (hb : b ∈ l) (hxb : le x b = true) :
    List.Sublist [x, b] (insertS le x l) := by
  induction l with
  | nil => cases hb
  | cons y ys ih =>
    simp only [insertS]
    by_cases h : le x y = true
    · rw [if_pos h]
      exact List.Sublist.cons₂ x (List.singleton_sublist.2 hb)
    · rw [if_neg h]
      rcases List.mem_cons.1 hb with rfl | hb
      · exact absurd hxb h
      · exact (ih hb).cons y

/-- Stability of the sort: a pair appearing in order in the input, whose
first component sorts no later than the second (`le a b`), appears in the
same order in the output. -/
lemma sortS_pair_sublist {a b : α} {l : List α}
    (h : List.Sublist [a, b] l) (hab : le a b = true) :
    List.Sublist [a, b] (sortS le l) := by
  induction l with
  | nil => cases h
  | cons x xs ih =>
    cases h with
    | cons _ h2 => exact (ih h2).trans (sublist_insertS le x (sortS le xs))
    | cons₂ _ h2 =>
      exact insertS_pair le ((mem_sortS le).2 (List.singleton_sublist.1 h2)) hab

end SortLemmas

/-- In a duplicate-free list, if a pair occurs in order and the later element
is among the first `k`, so is the earlier one. -/
lemma take_pair_mem {α : Type} {a b : α} {L : List α} {k : Nat}
    (h : List.Sublist [a, b] L) (hnd : L.Nodup) (hb : b ∈ L.take k) :
    a ∈ L.take k := by
  induction L generalizing k with
  | nil => cases h
  | cons x xs ih =>
    cases k with
    | zero => simp at hb
    | succ k =>
      rcases hnd with _ | ⟨hx, hxs⟩
      simp only [List.take_succ_cons, List.mem_cons] at hb ⊢
      cases h with
      | cons₂ _ h2 => exact Or.inl rfl
      | cons _ h2 =>
        rcases hb with rfl | hb
        · exact absurd rfl (hx b (h2.subset (by simp)))
        · exact Or.inr (ih h2 hxs hb)

lemma cosineSimSq_eq_zero {d n1 n2 : Nat} (h : d = 0) : cosineSimSq d n1 n2 = 0 := by
  subst h
  simp [cosineSimSq]

/-! ### Strings and stripping -/

lemma string_mk_data (s : String) : String.mk s.data = s := by
  cases s
  rfl

lemma string_data_append (a b : String) : (a ++ b).data = a.data ++ b.data := by
  cases a
  cases b
  rfl

lemma string_eq_empty_iff {s : String} : s = "" ↔ s.data = [] := by
  cases s with
  | mk d =>
    constructor
    · intro h
      rw [h]
    · intro h
      rw [show d = ([] : List Char) from h]

lemma dropWhile_eq_self {α : Type} {p : α → Bool} {l : List α}
    (h : ∀ c, l.head? = some c → p c = false) : l.dropWhile p = l := by
  cases l with
  | nil => rfl
  | cons x xs =>
    have hx : p x = false := h x rfl
    simp [List.dropWhile_cons, hx]

lemma dropWhile_head_not {α : Type} {p : α → Bool} :
    ∀ {l : List α} {c : α}, (l.dropWhile p).head? = some c → p c = false := by
  intro l
  induction l with
  | nil => intro c h; simp at h
  | cons x xs ih =>
    intro c h
    rw [List.dropWhile_cons] at h
    by_cases hx : p x = true
    · rw [if_pos hx] at h
      exact ih h
    · rw [if_neg hx] at h
      cases h
      simpa using hx

lemma getLast?_dropWhile {α : Type} {p : α → Bool} :
    ∀ {l : List α}, l.dropWhile p ≠ [] → (l.dropWhile p).getLast? = l.getLast? := by
  intro l
  induction l with
  | nil => intro h; simp at h
  | cons x xs ih =>
    intro h
    rw [List.dropWhile_cons]
    rw [List.dropWhile_cons] at h
    by_cases hx : p x = true
    · rw [if_pos hx] at h ⊢
      rw [ih h]
      have hxs : xs ≠ [] := by
        intro hn
        rw [hn] at h
        simp at h
      cases xs with
      | nil => exact absurd rfl hxs
      | cons y ys => exact (List.getLast?_cons_cons).symm
    · rw [if_neg hx]

lemma pyStripL_last_not {l : List Char} {c : Char}
    (h : (pyStripL l).getLast? = some c) : isPySpace c = false := by
  unfold pyStripL at h
  rw [List.getLast?_reverse] at h
  exact dropWhile_head_not h

lemma pyStripL_head_not {l : List Char} {c : Char}
    (h : (pyStripL l).head? = some c) : isPySpace c = false := by
  unfold pyStripL at h
  rw [List.head?_reverse] at h
  by_cases hB : (l.dropWhile isPySpace).reverse.dropWhile isPySpace = []
  · rw [hB] at h
    simp at h
  · rw [getLast?_dropWhile hB, List.getLast?_reverse] at h
    exact dropWhile_head_not h

lemma pyStripL_eq_self {l : List Char}
    (h1 : ∀ c, l.head? = some c → isPySpace c = false)
    (h2 : ∀ c, l.getLast? = some c → isPySpace c = false) : pyStripL l = l := by
  unfold pyStripL
  rw [dropWhile_eq_self h1]
  rw [dropWhile_eq_self (fun c hc => h2 c (by rwa [List.head?_reverse] at hc))]
  exact List.reverse_reverse l

lemma pyStripL_idem (l : List Char) : pyStripL (pyStripL l) = pyStripL l :=
  pyStripL_eq_self (fun _ h => pyStripL_head_not h) (fun _ h => pyStripL_last_not h)

lemma pyStripL_subset (l : List Char) : pyStripL l ⊆ l := by
  intro c hc
  unfold pyStripL at hc
  rw [List.mem_reverse] at hc
  have hc2 := (List.dropWhile_sublist isPySpace).subset hc
  rw [List.mem_reverse] at hc2
  exact (List.dropWhile_sublist isPySpace).subset hc2

/-- The invariant carried by every sentence fragment: nonempty, already
stripped, and containing no newline character. -/
def GoodFrag (s : String) : Prop :=
  s ≠ "" ∧ pyStrip s = s ∧ ∀ c ∈ s.data, c ≠ '\n'

lemma stripped_data {s : String} (h : pyStrip s = s) : pyStripL s.data = s.data := by
  have := congrArg String.data h
  simpa [pyStrip] using this

lemma stripped_head_not {s : String} (h : pyStrip s = s) :
    ∀ c, s.data.head? = some c → isPySpace c = false := by
  intro c hc
  refine pyStripL_head_not (l := s.data) ?_
  rw [stripped_data h]
  exact hc

lemma stripped_last_not {s : String} (h : pyStrip s = s) :
    ∀ c, s.data.getLast? = some c → isPySpace c = false := by
  intro c hc
  refine pyStripL_last_not (l := s.data) ?_
  rw [stripped_data h]
  exact hc

/-! ### Properties of the sentence splitter -/

lemma splitRawAux_noNl :
    ∀ (cs : List Char) (mode : SplitMode) (acc : List Char),
      (∀ c ∈ acc, c ≠ '\n') →
      ∀ p ∈ splitRawAux mode acc cs, ∀ c ∈ p, c ≠ '\n' := by
  intro cs
  induction cs with
  | nil =>
    intro mode acc hacc p hp c hc
    cases mode <;>
      (simp only [splitRawAux, List.mem_singleton] at hp
       exact hacc c (by rwa [hp, List.mem_reverse] at hc))
  | cons x xs ih =>
    intro mode acc hacc p hp c hc
    cases mode with
    | piece pp =>
      simp only [splitRawAux] at hp
      by_cases hb1 : (pp && isPySpace x) = true
      · rw [if_pos hb1] at hp
        rcases List.mem_cons.1 hp with rfl | hp
        · exact hacc c (by rwa [List.mem_reverse] at hc)
        · exact ih (.sepRun true) [] (by simp) p hp c hc
      · rw [if_neg hb1] at hp
        by_cases hb2 : x = '\n'
        · rw [if_pos hb2] at hp
          rcases List.mem_cons.1 hp with rfl | hp
          · exact hacc c (by rwa [List.mem_reverse] at hc)
          · exact ih (.sepRun false) [] (by simp) p hp c hc
        · rw [if_neg hb2] at hp
          refine ih _ (x :: acc) ?_ p hp c hc
          intro d hd
          rcases List.mem_cons.1 hd with rfl | hd
          · exact hb2
          · exact hacc d hd
    | sepRun sp =>
      simp only [splitRawAux] at hp
      by_cases hb1 : (sp && isPySpace x) = true
      · rw [if_pos hb1] at hp
        exact ih (.sepRun sp) acc hacc p hp c hc
      · rw [if_neg hb1] at hp
        by_cases hb2 : (!sp && x = '\n') = true
        · rw [if_pos hb2] at hp
          exact ih (.sepRun sp) acc hacc p hp c hc
        · rw [if_neg hb2] at hp
          refine ih _ (x :: acc) ?_ p hp c hc
          intro d hd
          rcases List.mem_cons.1 hd with rfl | hd
          · intro hnl
            cases sp with
            | true =>
              refine hb1 ?_
              rw [hnl]
              rfl
            | false =>
              refine hb2 ?_
              rw [hnl]
              rfl
          · exact hacc d hd

lemma rawFragments_good (text : String) : ∀ s ∈ rawFragments text, GoodFrag s := by
  intro s hs
  unfold rawFragments at hs
  rcases List.mem_map.1 hs with ⟨p, hp, rfl⟩
  unfold rawPiecesL at hp
  rcases List.mem_filter.1 hp with ⟨hpm, hpe⟩
  rcases List.mem_map.1 hpm with ⟨q, hq, rfl⟩
  have hnonempty : pyStripL q ≠ [] := by
    intro h
    rw [h] at hpe
    simp at hpe
  refine ⟨?_, ?_, ?_⟩
  · exact fun h => hnonempty (string_eq_empty_iff.1 h)
  · show pyStrip (String.mk (pyStripL q)) = String.mk (pyStripL q)
    unfold pyStrip
    exact congrArg String.mk (pyStripL_idem q)
  · intro c hc
    exact splitRawAux_noNl text.data (.piece false) [] (by simp) q hq c
      (pyStripL_subset q hc)

lemma split_sentences_good (text : String) : ∀ s ∈ split_sentences text, GoodFrag s := by
  have hjoin : ∀ a b : String, GoodFrag a → GoodFrag b →
      GoodFrag (pyStrip (a ++ " " ++ b)) := by
    intro a b ha hb
    have hdata : (a ++ " " ++ b).data = a.data ++ (' ' :: b.data) := by
      rw [string_data_append, string_data_append,
        show (" " : String).data = [' '] from by decide, List.append_assoc]
      rfl
    have hBne : b.data ≠ [] := fun h => hb.1 (string_eq_empty_iff.2 h)
    have hAne : a.data ≠ [] := fun h => ha.1 (string_eq_empty_iff.2 h)
    have hnoop : pyStrip (a ++ " " ++ b) = a ++ " " ++ b := by
      unfold pyStrip
      rw [hdata]
      rw [pyStripL_eq_self ?_ ?_]
      · rw [← hdata, string_mk_data]
      · intro c hc
        rw [List.head?_append_of_ne_nil _ hAne] at hc
        exact stripped_head_not ha.2.1 c hc
      · intro c hc
        rw [List.getLast?_append_of_ne_nil _ (by simp)] at hc
        have hlast : (' ' :: b.data).getLast? = b.data.getLast? := by
          cases hd : b.data with
          | nil => exact absurd hd hBne
          | cons y ys => exact List.getLast?_cons_cons
        rw [hlast] at hc
        exact stripped_last_not hb.2.1 c hc
    rw [hnoop]
    refine ⟨?_, ?_, ?_⟩
    · intro h
      have h2 := string_eq_empty_iff.1 h
      rw [hdata] at h2
      simp at h2
    · rw [hnoop]
    · intro c hc
      rw [hdata] at hc
      rcases List.mem_append.1 hc with hc | hc
      · exact ha.2.2 c hc
      · rcases List.mem_cons.1 hc with rfl | hc
        · decide
        · exact hb.2.2 c hc
  have hmerge : ∀ (l : List String) (buf : String),
      (buf = "" ∨ GoodFrag buf) → (∀ s ∈ l, GoodFrag s) →
      ∀ s ∈ mergeTinyAux buf l, GoodFrag s := by
    intro l
    induction l with
    | nil =>
      intro buf hbuf hl s hs
      unfold mergeTinyAux at hs
      by_cases hb : buf = ""
      · rw [if_pos hb] at hs
        simp at hs
      · rw [if_neg hb] at hs
        rcases hbuf with h | h
        · exact absurd h hb
        · rwa [show s = buf from by simpa using hs]
    | cons x xs ih =>
      intro buf hbuf hl s hs
      unfold mergeTinyAux at hs
      by_cases h1 : x.data.length < 20 ∧ buf ≠ ""
      · rw [if_pos h1] at hs
        have hgb : GoodFrag buf := by
          rcases hbuf with h | h
          · exact absurd h h1.2
          · exact h
        exact ih (pyStrip (buf ++ " " ++ x))
          (Or.inr (hjoin buf x hgb (hl x (by simp))))
          (fun t ht => hl t (by simp [ht])) s hs
      · rw [if_neg h1] at hs
        by_cases h2 : buf = ""
        · rw [if_pos h2] at hs
          exact ih x (Or.inr (hl x (by simp))) (fun t ht => hl t (by simp [ht])) s hs
        · rw [if_neg h2] at hs
          rcases List.mem_cons.1 hs with rfl | hs
          · rcases hbuf with h | h
            · exact absurd h h2
            · exact h
          · exact ih x (Or.inr (hl x (by simp))) (fun t ht => hl t (by simp [ht])) s hs
  intro s hs
  exact hmerge (rawFragments text) "" (Or.inl rfl) (rawFragments_good text) s hs

lemma mergeTinyAux_nil_start (s1 : String) (rest : List String) :
    mergeTinyAux "" (s1 :: rest) = mergeTinyAux s1 rest := by
  conv_lhs => rw [mergeTinyAux]
  rw [if_neg (by simp), if_pos rfl]

lemma mergeTinyAux_flush {s1 s2 : String} (rest : List String)
    (h1 : s1 ≠ "") (h2 : ¬ s2.data.length < 20) :
    mergeTinyAux s1 (s2 :: rest) = s1 :: mergeTinyAux s2 rest := by
  conv_lhs => rw [mergeTinyAux]
  rw [if_neg (fun h => h2 h.1), if_neg h1]

lemma mergeTinyAux_single {s1 : String} (h1 : s1 ≠ "") : mergeTinyAux s1 [] = [s1] := by
  unfold mergeTinyAux
  rw [if_neg h1]

/-- C10: the under-20-character merge of `split_sentences` only merges a
fragment into a preceding sentence, never forward: a first raw fragment
shorter than 20 characters whose successor (if any) is at least 20
characters long is emitted as a standalone sentence (so outputs may contain
sentences shorter than 20 characters), and every returned sentence is
nonempty and carries no leading or trailing whitespace. -/
theorem split_sentences_short_first_standalone :
    (∀ text s1 s2 rest, rawFragments text = s1 :: s2 :: rest →
      s1.data.length < 20 → 20 ≤ s2.data.length →
      split_sentences text = s1 :: mergeTinyAux s2 rest ∧
      (split_sentences text).head? = some s1) ∧
    (∀ text s1, rawFragments text = [s1] → split_sentences text = [s1]) ∧
    (∀ text, ∀ s ∈ split_sentences text, s ≠ "" ∧ pyStrip s = s) := by
  refine ⟨?_, ?_, ?_⟩
  · intro text s1 s2 rest h h1 h2
    have hg1 : GoodFrag s1 := rawFragments_good text s1 (by rw [h]; simp)
    have heq : split_sentences text = s1 :: mergeTinyAux s2 rest := by
      unfold split_sentences
      rw [h, mergeTinyAux_nil_start, mergeTinyAux_flush rest hg1.1 (by omega)]
    refine ⟨heq, ?_⟩
    rw [heq]
    rfl
  · intro text s1 h
    have hg1 : GoodFrag s1 := rawFragments_good text s1 (by rw [h]; simp)
    unfold split_sentences
    rw [h, mergeTinyAux_nil_start, mergeTinyAux_single hg1.1]
  · intro text s hs
    exact ⟨(split_sentences_good text s hs).1, (split_sentences_good text s hs).2.1⟩

/-- Witness for `split_sentences_short_first_standalone` at a concrete text
whose first raw fragment is `"Hi."` (3 characters) and whose second is 55
characters long. -/
theorem split_sentences_short_first_standalone_witness :
    split_sentences "Hi. This sentence is definitely long enough to stand alone." =
      "Hi." :: mergeTinyAux "This sentence is definitely long enough to stand alone." [] ∧
    (split_sentences "Hi. This sentence is definitely long enough to stand alone.").head? =
      some "Hi." :=
  split_sentences_short_first_standalone.1
    "Hi. This sentence is definitely long enough to stand alone." "Hi."
    "This sentence is definitely long enough to stand alone." []
    (by decide) (by decide) (by decide)

/-! ### Line counting for the summary bound -/

lemma splitNlAux_length (cs : List Char) :
    ∀ acc, (splitNlAux acc cs).length = 1 + cs.countP (fun c => decide (c = '\n')) := by
  induction cs with
  | nil =>
    intro acc
    simp [splitNlAux]
  | cons c cs ih =>
    intro acc
    rw [splitNlAux]
    by_cases h : c = '\n'
    · rw [if_pos h, List.countP_cons, if_pos (by simp [h])]
      simp only [List.length_cons, ih]
      omega
    · rw [if_neg h, List.countP_cons, if_neg (by simp [h]), ih]
      omega

lemma joinNL_eq_cons (s s' : String) (rest : List String) :
    joinNL (s :: s' :: rest) = s ++ "\n" ++ joinNL (s' :: rest) := rfl

lemma joinNL_data_props :
    ∀ (l : List String), l ≠ [] → (∀ s ∈ l, GoodFrag s) →
      (joinNL l).data ≠ [] ∧
      (joinNL l).data.countP (fun c => decide (c = '\n')) = l.length - 1 ∧
      (∀ c, (joinNL l).data.head? = some c → isPySpace c = false) ∧
      (∀ c, (joinNL l).data.getLast? = some c → isPySpace c = false) := by
  intro l
  induction l with
  | nil => intro h; exact absurd rfl h
  | cons s rest ih =>
    intro _ hg
    cases rest with
    | nil =>
      have hgs := hg s (by simp)
      refine ⟨fun h => hgs.1 (string_eq_empty_iff.2 h), ?_,
        stripped_head_not hgs.2.1, stripped_last_not hgs.2.1⟩
      show s.data.countP (fun c => decide (c = '\n')) = [s].length - 1
      simp only [List.length_singleton]
      refine List.countP_eq_zero.2 ?_
      intro a ha
      simpa using hgs.2.2 a ha
    | cons s' rest' =>
      have ih2 := ih (by simp) (fun t ht => hg t (by simp [ht]))
      have hgs := hg s (by simp)
      have hsne : s.data ≠ [] := fun h => hgs.1 (string_eq_empty_iff.2 h)
      have hdata : (joinNL (s :: s' :: rest')).data =
          s.data ++ ('\n' :: (joinNL (s' :: rest')).data) := by
        rw [joinNL_eq_cons, string_data_append, string_data_append,
          show ("\n" : String).data = ['\n'] from by decide, List.append_assoc]
        rfl
      refine ⟨?_, ?_, ?_, ?_⟩
      · rw [hdata]
        simp [hsne]
      · rw [hdata, List.countP_append, List.countP_cons]
        have hz : s.data.countP (fun c => decide (c = '\n')) = 0 := by
          refine List.countP_eq_zero.2 ?_
          intro a ha
          simpa using hgs.2.2 a ha
        rw [hz, ih2.2.1, if_pos (by simp)]
        simp only [List.length_cons]
        omega
      · intro c hc
        rw [hdata, List.head?_append_of_ne_nil _ hsne] at hc
        exact stripped_head_not hgs.2.1 c hc
      · intro c hc
        rw [hdata, List.getLast?_append_of_ne_nil _ (by simp)] at hc
        have hJne := ih2.1
        have hstep : ('\n' :: (joinNL (s' :: rest')).data).getLast? =
            (joinNL (s' :: rest')).data.getLast? := by
          cases hd : (joinNL (s' :: rest')).data with
          | nil => exact absurd hd hJne
          | cons y ys => exact List.getLast?_cons_cons
        rw [hstep] at hc
        exact ih2.2.2.2 c hc

lemma lineCount_joinNL {l : List String} (hne : l ≠ []) (hg : ∀ s ∈ l, GoodFrag s) :
    lineCount (joinNL l) = l.length := by
  obtain ⟨h1, h2, -, -⟩ := joinNL_data_props l hne hg
  unfold lineCount
  rw [if_neg h1, splitNlAux_length, h2]
  have := List.length_pos_of_ne_nil hne
  omega

lemma pyStrip_joinNL {l : List String} (hne : l ≠ []) (hg : ∀ s ∈ l, GoodFrag s) :
    pyStrip (joinNL l) = joinNL l := by
  obtain ⟨-, -, h3, h4⟩ := joinNL_data_props l hne hg
  unfold pyStrip
  rw [pyStripL_eq_self h3 h4, string_mk_data]

/-! ### Summarizer structure lemmas -/

lemma enumIdx_length {α : Type} : ∀ (l : List α) (i : Nat), (enumIdx i l).length = l.length := by
  intro l
  induction l with
  | nil => intro i; rfl
  | cons x xs ih =>
    intro i
    simp [enumIdx, ih]

lemma enumIdx_fst_lt {α : Type} :
    ∀ (l : List α) (i : Nat) (p : Nat × α), p ∈ enumIdx i l → p.1 < i + l.length := by
  intro l
  induction l with
  | nil => intro i p hp; simp [enumIdx] at hp
  | cons x xs ih =>
    intro i p hp
    rcases List.mem_cons.1 hp with rfl | hp
    · simp
    · have := ih (i + 1) p hp
      simp only [List.length_cons]
      omega

lemma scoredList_length (jaSeg : String → List String) (lg : ℚ → ℚ) (text : String) :
    (scoredList jaSeg lg text).length = (split_sentences text).length := by
  unfold scoredList
  rw [List.length_map, enumIdx_length]

lemma mem_scoredList_fst_lt {jaSeg : String → List String} {lg : ℚ → ℚ} {text : String}
    {p : Nat × ℚ} (hp : p ∈ scoredList jaSeg lg text) :
    p.1 < (split_sentences text).length := by
  unfold scoredList at hp
  rcases List.mem_map.1 hp with ⟨q, hq, rfl⟩
  have h := enumIdx_fst_lt _ 0 q hq
  simp only [Nat.zero_add] at h
  exact h

lemma mem_topIdx_mem_scored {jaSeg : String → List String} {lg : ℚ → ℚ} {text : String}
    {k : Nat} {p : Nat × ℚ} (hp : p ∈ topIdx jaSeg lg text k) :
    p ∈ scoredList jaSeg lg text := by
  unfold topIdx at hp
  rw [mem_sortS] at hp
  unfold topScored at hp
  have := (List.take_sublist k _).subset hp
  rwa [mem_sortS] at this

lemma getD_mem {α : Type} {l : List α} {i : Nat} {d : α} (h : i < l.length) :
    l.getD i d ∈ l := by
  rw [List.getD_eq_getElem?_getD, List.getElem?_eq_getElem h]
  simpa using List.getElem_mem h

lemma topIdx_length (jaSeg : String → List String) (lg : ℚ → ℚ) (text : String) (k : Nat) :
    (topIdx jaSeg lg text k).length = min k (split_sentences text).length := by
  unfold topIdx topScored
  rw [length_sortS, List.length_take, length_sortS, scoredList_length]

/-- C5: for every text and every requested count `k > 0`, the number of
newline-separated lines in `summarize(text, k)` is at most `k` and at most
the number of sentences produced by splitting the text. -/
theorem summarize_line_bound (jaSeg : String → List String) (lg : ℚ → ℚ)
    (text : String) (k : Nat) (hk : 0 < k) :
    lineCount (summarize jaSeg lg text k) ≤ k ∧
    lineCount (summarize jaSeg lg text k) ≤ (split_sentences text).length := by
  by_cases h1 : split_sentences text = []
  · rw [show summarize jaSeg lg text k = "" by simp [summarize, h1]]
    rw [show lineCount "" = 0 from by decide]
    omega
  · have hn := List.length_pos_of_ne_nil h1
    by_cases h2 : tokenize jaSeg text = []
    · have hout : summarize jaSeg lg text k = joinNL ((split_sentences text).take k) := by
        simp [summarize, h1, h2]
      have htk_ne : (split_sentences text).take k ≠ [] := by
        intro h
        have := congrArg List.length h
        rw [List.length_take] at this
        simp only [List.length_nil] at this
        omega
      have hgood : ∀ s ∈ (split_sentences text).take k, GoodFrag s :=
        fun s hs => split_sentences_good text s ((List.take_sublist k _).subset hs)
      rw [hout, lineCount_joinNL htk_ne hgood, List.length_take]
      exact ⟨min_le_left k _, min_le_right k _⟩
    · have hout : summarize jaSeg lg text k =
          pyStrip (joinNL ((topIdx jaSeg lg text k).map
            (fun p => (split_sentences text).getD p.1 ""))) := by
        simp [summarize, h1, h2]
      have hgood : ∀ s ∈ (topIdx jaSeg lg text k).map
          (fun p => (split_sentences text).getD p.1 ""), GoodFrag s := by
        intro s hs
        rcases List.mem_map.1 hs with ⟨p, hp, rfl⟩
        exact split_sentences_good text _
          (getD_mem (mem_scoredList_fst_lt (mem_topIdx_mem_scored hp)))
      have hlen : ((topIdx jaSeg lg text k).map
          (fun p => (split_sentences text).getD p.1 "")).length =
          min k (split_sentences text).length := by
        rw [List.length_map, topIdx_length]
      have hne : (topIdx jaSeg lg text k).map
          (fun p => (split_sentences text).getD p.1 "") ≠ [] := by
        intro h
        have := congrArg List.length h
        rw [hlen] at this
        simp only [List.length_nil] at this
        omega
      rw [hout, pyStrip_joinNL hne hgood, lineCount_joinNL hne hgood, hlen]
      exact ⟨min_le_left k _, min_le_right k _⟩

/-! ### Selection order and tie-breaking (C6) -/

lemma mem_of_getElemOpt {α : Type} {l : List α} {n : Nat} {a : α}
    (h : l[n]? = some a) : a ∈ l := by
  rcases List.getElem?_eq_some.1 h with ⟨hn, hv⟩
  rw [← hv]
  exact List.getElem_mem hn

lemma enumIdx_mem_getElemOpt {α : Type} :
    ∀ (l : List α) (i : Nat) (p : Nat × α), p ∈ enumIdx i l →
      i ≤ p.1 ∧ (enumIdx i l)[p.1 - i]? = some p := by
  intro l
  induction l with
  | nil => intro i p hp; simp [enumIdx] at hp
  | cons x xs ih =>
    intro i p hp
    rcases List.mem_cons.1 hp with rfl | hp
    · refine ⟨le_refl i, ?_⟩
      rw [Nat.sub_self,
        show enumIdx i (x :: xs) = (i, x) :: enumIdx (i + 1) xs from rfl,
        List.getElem?_cons_zero]
    · obtain ⟨hle, hget⟩ := ih (i + 1) p hp
      refine ⟨by omega, ?_⟩
      rw [show enumIdx i (x :: xs) = (i, x) :: enumIdx (i + 1) xs from rfl,
        show p.1 - i = (p.1 - (i + 1)) + 1 from by omega, List.getElem?_cons_succ]
      exact hget

lemma scoredList_getElemOpt {jaSeg : String → List String} {lg : ℚ → ℚ} {text : String}
    {p : Nat × ℚ} (hp : p ∈ scoredList jaSeg lg text) :
    (scoredList jaSeg lg text)[p.1]? = some p := by
  unfold scoredList at hp ⊢
  rcases List.mem_map.1 hp with ⟨q, hq, rfl⟩
  obtain ⟨-, hget⟩ := enumIdx_mem_getElemOpt _ 0 q hq
  rw [Nat.sub_zero] at hget
  rw [List.getElem?_map]
  show (enumIdx 0 (split_sentences text))[q.1]?.map _ = _
  rw [hget]
  rfl

lemma pair_sublist_of_getElemOpt {α : Type} :
    ∀ {L : List α} {i j : Nat} {a b : α}, i < j →
      L[i]? = some a → L[j]? = some b → List.Sublist [a, b] L := by
  intro L
  induction L with
  | nil => intro i j a b hij ha hb; simp at ha
  | cons x xs ih =>
    intro i j a b hij ha hb
    cases i with
    | zero =>
      rw [List.getElem?_cons_zero] at ha
      injection ha with ha
      cases j with
      | zero => omega
      | succ j =>
        rw [List.getElem?_cons_succ] at hb
        rw [← ha]
        exact List.Sublist.cons₂ x (List.singleton_sublist.2 (mem_of_getElemOpt hb))
    | succ i =>
      cases j with
      | zero => omega
      | succ j =>
        rw [List.getElem?_cons_succ] at ha hb
        exact (ih (by omega) ha hb).cons x

lemma enumIdx_map_fst {α : Type} :
    ∀ (l : List α) (i : Nat), (enumIdx i l).map Prod.fst = List.range' i l.length := by
  intro l
  induction l with
  | nil => intro i; rfl
  | cons x xs ih =>
    intro i
    rw [show enumIdx i (x :: xs) = (i, x) :: enumIdx (i + 1) xs from rfl,
      List.map_cons, ih, List.length_cons, List.range'_succ]

lemma scoredList_nodup (jaSeg : String → List String) (lg : ℚ → ℚ) (text : String) :
    (scoredList jaSeg lg text).Nodup := by
  refine List.Nodup.of_map Prod.fst ?_
  have hfst : (scoredList jaSeg lg text).map Prod.fst =
      List.range' 0 (split_sentences text).length := by
    unfold scoredList
    rw [List.map_map]
    have : (Prod.fst ∘ fun p : Nat × String =>
        (p.1, sentenceScore jaSeg lg (tokenize jaSeg text) p.2)) = Prod.fst := rfl
    rw [this, enumIdx_map_fst]
  rw [hfst]
  exact List.nodup_range' 0 _

lemma scoredList_fst_inj {jaSeg : String → List String} {lg : ℚ → ℚ} {text : String}
    {p q : Nat × ℚ} (hp : p ∈ scoredList jaSeg lg text)
    (hq : q ∈ scoredList jaSeg lg text) (h : p.1 = q.1) : p = q := by
  have h1 := scoredList_getElemOpt hp
  have h2 := scoredList_getElemOpt hq
  rw [h, h2] at h1
  injection h1 with h1
  exact h1.symm

/-- C6: the sentences selected by `summarize` appear in the result in
ascending original-index order (the final re-sort by index), regardless of
their score ranking, and score ties among candidates are broken by
ascending original index: when two sentences have equal scores and the
later one is selected, so is the earlier one (stability of the descending
score sort over the index-ordered `scored` list).  The third conjunct ties
the selection to the actual output string. -/
theorem summarize_order_and_ties (jaSeg : String → List String) (lg : ℚ → ℚ)
    (text : String) (k : Nat) :
    ((topIdx jaSeg lg text k).map Prod.fst).Pairwise (· < ·) ∧
    (∀ i j si sj, i < j → si = sj →
      (i, si) ∈ scoredList jaSeg lg text → (j, sj) ∈ scoredList jaSeg lg text →
      (j, sj) ∈ topIdx jaSeg lg text k → (i, si) ∈ topIdx jaSeg lg text k) ∧
    (split_sentences text ≠ [] → tokenize jaSeg text ≠ [] →
      summarize jaSeg lg text k =
        pyStrip (joinNL ((topIdx jaSeg lg text k).map
          (fun p => (split_sentences text).getD p.1 "")))) := by
  refine ⟨?_, ?_, ?_⟩
  · have hsorted : (topIdx jaSeg lg text k).Pairwise
        (fun p q : Nat × ℚ => (fun p q : Nat × ℚ => decide (p.1 ≤ q.1)) p q = true) := by
      exact sortS_sorted _ (fun a b c hab hbc => by
          simp only [decide_eq_true_eq] at hab hbc ⊢
          omega)
        (fun a b => by
          simp only [decide_eq_true_eq]
          omega)
        _
    have hnodup : (topIdx jaSeg lg text k).Nodup := by
      refine nodup_sortS _ ?_
      refine (List.take_sublist k _).nodup ?_
      exact nodup_sortS _ (scoredList_nodup jaSeg lg text)
    have hlt : (topIdx jaSeg lg text k).Pairwise (fun p q : Nat × ℚ => p.1 < q.1) := by
      refine ((hsorted.and hnodup).imp_of_mem ?_)
      intro p q hp hq hand
      have hle : p.1 ≤ q.1 := by simpa using hand.1
      refine lt_of_le_of_ne hle ?_
      intro hfst
      exact hand.2 (scoredList_fst_inj (mem_topIdx_mem_scored hp)
        (mem_topIdx_mem_scored hq) hfst)
    exact List.pairwise_map.2 hlt
  · intro i j si sj hij hs hi hj hjtop
    have hsub : List.Sublist [(i, si), (j, sj)] (scoredList jaSeg lg text) :=
      pair_sublist_of_getElemOpt hij (scoredList_getElemOpt hi) (scoredList_getElemOpt hj)
    have hstable : List.Sublist [(i, si), (j, sj)]
        (sortS (fun p q : Nat × ℚ => decide (q.2 ≤ p.2)) (scoredList jaSeg lg text)) := by
      refine sortS_pair_sublist _ hsub ?_
      simp [hs]
    have hnodup : (sortS (fun p q : Nat × ℚ => decide (q.2 ≤ p.2))
        (scoredList jaSeg lg text)).Nodup :=
      nodup_sortS _ (scoredList_nodup jaSeg lg text)
    have hjtake : (j, sj) ∈ topScored jaSeg lg text k := by
      unfold topIdx at hjtop
      exact (mem_sortS _).1 hjtop
    have hitake : (i, si) ∈ topScored jaSeg lg text k :=
      take_pair_mem hstable hnodup hjtake
    unfold topIdx
    exact (mem_sortS _).2 hitake
  · intro h1 h2
    simp [summarize, h1, h2]

/-- Witness for `summarize_order_and_ties`: the output-equality conjunct
applied at a concrete text whose hypotheses are discharged by computation. -/
theorem summarize_order_and_ties_witness :
    summarize jaSeg0 (fun _ => 0)
      "Sentence one is long enough to count. Sentence two is also sufficiently long." 1 =
      pyStrip (joinNL ((topIdx jaSeg0 (fun _ => 0)
        "Sentence one is long enough to count. Sentence two is also sufficiently long." 1).map
          (fun p => (split_sentences
            "Sentence one is long enough to count. Sentence two is also sufficiently long.").getD
              p.1 ""))) :=
  (summarize_order_and_ties jaSeg0 (fun _ => 0)
    "Sentence one is long enough to count. Sentence two is also sufficiently long." 1).2.2
    (by decide) (by decide)

/-- Witness for `summarize_line_bound` at a concrete text and `k = 1`. -/
theorem summarize_line_bound_witness :
    lineCount (summarize jaSeg0 (fun _ => 0)
      "Sentence one is long enough to count. Sentence two is also sufficiently long." 1) ≤ 1 ∧
    lineCount (summarize jaSeg0 (fun _ => 0)
      "Sentence one is long enough to count. Sentence two is also sufficiently long." 1) ≤
      (split_sentences
        "Sentence one is long enough to count. Sentence two is also sufficiently long.").length :=
  summarize_line_bound jaSeg0 (fun _ => 0)
    "Sentence one is long enough to count. Sentence two is also sufficiently long." 1
    (by decide)

/-! ### Graph builder (C7) -/

lemma filter_length_mono {α : Type} {p q : α → Bool} (l : List α)
    (h : ∀ x ∈ l, p x = true → q x = true) :
    (l.filter p).length ≤ (l.filter q).length := by
  induction l with
  | nil => simp
  | cons x xs ih =>
    have ih2 := ih (fun y hy hpy => h y (by simp [hy]) hpy)
    simp only [List.filter_cons]
    by_cases hp : p x = true
    · rw [if_pos hp, if_pos (h x (by simp) hp)]
      simpa using ih2
    · rw [if_neg hp]
      by_cases hq : q x = true
      · rw [if_pos hq]
        simp only [List.length_cons]
        omega
      · rw [if_neg hq]
        exact ih2

lemma build_edges_mem_iff (sim : Nat → Nat → ℚ) (n : Nat) (t : ℚ) (e : Edge) :
    e ∈ build_edges sim n t ↔
      (e.a < e.b ∧ e.b < n ∧ e.weight = sim e.a e.b ∧ t ≤ e.weight) := by
  unfold build_edges
  rw [mem_sortS]
  constructor
  · intro he
    rcases List.mem_flatMap.1 he with ⟨i, hi, hin⟩
    rw [List.mem_filter] at hin
    rcases hin with ⟨hm, hw⟩
    rcases List.mem_map.1 hm with ⟨j, hj, rfl⟩
    rw [List.mem_filter] at hj
    rcases hj with ⟨hjr, hij⟩
    rw [List.mem_range] at hjr
    simp only [decide_eq_true_eq] at hij hw
    exact ⟨hij, hjr, rfl, hw⟩
  · rcases e with ⟨a, b, w⟩
    rintro ⟨hab, hbn, hw, ht⟩
    simp only at hab hbn hw ht
    refine List.mem_flatMap.2 ⟨a, List.mem_range.2 (by omega), ?_⟩
    rw [List.mem_filter]
    refine ⟨List.mem_map.2 ⟨b, ?_, ?_⟩, by simpa using ht⟩
    · rw [List.mem_filter, List.mem_range]
      exact ⟨hbn, by simpa using hab⟩
    · rw [← hw]

/-- C7: `build_edges` returns exactly the upper-triangle pairs (`i < j`)
whose weight is at least the threshold, sorted by weight descending;
consequently raising the threshold never increases the number of edges. -/
theorem build_edges_spec (sim : Nat → Nat → ℚ) (n : Nat) (t t2 : ℚ) (h : t ≤ t2) :
    (∀ e : Edge, e ∈ build_edges sim n t ↔
      (e.a < e.b ∧ e.b < n ∧ e.weight = sim e.a e.b ∧ t ≤ e.weight)) ∧
    (build_edges sim n t).Pairwise (fun e f => f.weight ≤ e.weight) ∧
    (build_edges sim n t2).length ≤ (build_edges sim n t).length := by
  refine ⟨fun e => build_edges_mem_iff sim n t e, ?_, ?_⟩
  · have hs := sortS_sorted (fun e f : Edge => decide (f.weight ≤ e.weight))
      (fun a b c hab hbc => by
        simp only [decide_eq_true_eq] at hab hbc ⊢
        exact le_trans hbc hab)
      (fun a b => by
        simp only [decide_eq_true_eq]
        exact le_total b.weight a.weight)
      ((List.range n).flatMap (fun i =>
        (((List.range n).filter (fun j => decide (i < j))).map
          (fun j => Edge.mk i j (sim i j))).filter (fun e => decide (t ≤ e.weight))))
    unfold build_edges
    exact hs.imp (fun hab => by simpa using hab)
  · unfold build_edges
    rw [length_sortS, length_sortS, List.length_flatMap, List.length_flatMap]
    refine List.sum_le_sum ?_
    intro i hi
    simp only [Function.comp]
    refine filter_length_mono _ ?_
    intro e he ht2
    simp only [decide_eq_true_eq] at ht2 ⊢
    exact le_trans h ht2

/-- Witness for `build_edges_spec`: the monotonicity conjunct at a concrete
matrix and thresholds. -/
theorem build_edges_spec_witness :
    (build_edges (fun _ _ => (1 : ℚ)) 2 1).length ≤
      (build_edges (fun _ _ => (1 : ℚ)) 2 0).length :=
  (build_edges_spec (fun _ _ => 1) 2 0 1 (by norm_num)).2.2

/-! ### Comparator lemmas -/

lemma zipWith_map_same {α β γ : Type} (g : β → β → γ) (f1 f2 : α → β) :
    ∀ (l : List α), List.zipWith g (l.map f1) (l.map f2) = l.map (fun x => g (f1 x) (f2 x)) := by
  intro l
  induction l with
  | nil => rfl
  | cons x xs ih => simp [ih]

lemma zip_self_map {α β : Type} (l : List α) (f : α → β) :
    l.zip (l.map f) = l.map (fun x => (x, f x)) := by
  induction l with
  | nil => rfl
  | cons x xs ih => simp [ih]

lemma bucket_mem {vocab : List String} {vals : List Nat} {k : Nat} {p : String × Nat}
    (hp : p ∈ bucketList vocab vals k) : p ∈ vocab.zip vals ∧ 0 < p.2 := by
  unfold bucketList at hp
  rw [List.mem_filter] at hp
  refine ⟨(mem_sortS _).1 ((List.take_sublist _ _).subset hp.1), by simpa using hp.2⟩

lemma df_pair (t : String) (d1 d2 : List String) :
    df t [d1, d2] = (if t ∈ d1 then 1 else 0) + (if t ∈ d2 then 1 else 0) := by
  unfold df
  by_cases h1 : t ∈ d1 <;> by_cases h2 : t ∈ d2 <;>
    simp [List.countP_cons, h1, h2]

lemma fitVocab_eq (docs : List (List String)) :
    fitVocab docs =
      if docs.flatten.dedup = [] then .error .emptyVocabulary
      else if docs.flatten.dedup.filter
          (fun t => decide (1 ≤ df t docs) && decide (100 * df t docs ≤ 95 * docs.length)) = []
        then .error .noTermsRemain
        else .ok (docs.flatten.dedup.filter
          (fun t => decide (1 ≤ df t docs) && decide (100 * df t docs ≤ 95 * docs.length))) :=
  rfl

lemma fitVocab_pair_mem {d1 d2 : List String} {vocab : List String}
    (h : fitVocab [d1, d2] = .ok vocab) :
    ∀ t ∈ vocab, (t ∈ d1 ∧ t ∉ d2) ∨ (t ∈ d2 ∧ t ∉ d1) := by
  intro t ht
  rw [fitVocab_eq] at h
  split at h
  · simp at h
  · split at h
    · simp at h
    · injection h with h
      rw [← h] at ht
      rw [List.mem_filter] at ht
      have hcond := ht.2
      simp only [Bool.and_eq_true, decide_eq_true_eq] at hcond
      have hdf : df t [d1, d2] = 1 := by
        have := hcond.2
        simp only [List.length_cons, List.length_nil] at this
        omega
      rw [df_pair] at hdf
      by_cases h1 : t ∈ d1 <;> by_cases h2 : t ∈ d2 <;>
        simp [h1, h2] at hdf ⊢

lemma compare_texts_eq (jaSeg : String → List String) (t1 t2 : String) (k : Nat) :
    compare_texts jaSeg t1 t2 k =
      (match fitVocab [docTerms jaSeg t1, docTerms jaSeg t2] with
        | .error e => (.error e : Except VecError CompareResult)
        | .ok vocab =>
          .ok { similaritySq :=
                  cosineSimSq
                    (dotN (vocab.map (fun t => (docTerms jaSeg t1).count t))
                          (vocab.map (fun t => (docTerms jaSeg t2).count t)))
                    (dotN (vocab.map (fun t => (docTerms jaSeg t1).count t))
                          (vocab.map (fun t => (docTerms jaSeg t1).count t)))
                    (dotN (vocab.map (fun t => (docTerms jaSeg t2).count t))
                          (vocab.map (fun t => (docTerms jaSeg t2).count t)))
                common_terms := bucketList vocab
                  (List.zipWith min (vocab.map (fun t => (docTerms jaSeg t1).count t))
                    (vocab.map (fun t => (docTerms jaSeg t2).count t))) k
                doc1_unique_terms := bucketList vocab
                  (List.zipWith (fun a b => a - b)
                    (vocab.map (fun t => (docTerms jaSeg t1).count t))
                    (vocab.map (fun t => (docTerms jaSeg t2).count t))) k
                doc2_unique_terms := bucketList vocab
                  (List.zipWith (fun a b => a - b)
                    (vocab.map (fun t => (docTerms jaSeg t2).count t))
                    (vocab.map (fun t => (docTerms jaSeg t1).count t))) k }) :=
  rfl

lemma compare_texts_ok {jaSeg : String → List String} {t1 t2 : String} {k : Nat}
    {r : CompareResult} (h : compare_texts jaSeg t1 t2 k = .ok r) :
    ∃ vocab, fitVocab [docTerms jaSeg t1, docTerms jaSeg t2] = .ok vocab ∧
      r = { similaritySq :=
              cosineSimSq
                (dotN (vocab.map (fun t => (docTerms jaSeg t1).count t))
                      (vocab.map (fun t => (docTerms jaSeg t2).count t)))
                (dotN (vocab.map (fun t => (docTerms jaSeg t1).count t))
                      (vocab.map (fun t => (docTerms jaSeg t1).count t)))
                (dotN (vocab.map (fun t => (docTerms jaSeg t2).count t))
                      (vocab.map (fun t => (docTerms jaSeg t2).count t)))
            common_terms := bucketList vocab
              (List.zipWith min (vocab.map (fun t => (docTerms jaSeg t1).count t))
                (vocab.map (fun t => (docTerms jaSeg t2).count t))) k
            doc1_unique_terms := bucketList vocab
              (List.zipWith (fun a b => a - b)
                (vocab.map (fun t => (docTerms jaSeg t1).count t))
                (vocab.map (fun t => (docTerms jaSeg t2).count t))) k
            doc2_unique_terms := bucketList vocab
              (List.zipWith (fun a b => a - b)
                (vocab.map (fun t => (docTerms jaSeg t2).count t))
                (vocab.map (fun t => (docTerms jaSeg t1).count t))) k } := by
  rw [compare_texts_eq] at h
  cases hv : fitVocab [docTerms jaSeg t1, docTerms jaSeg t2] with
  | error e =>
    rw [hv] at h
    simp at h
  | ok vocab =>
    rw [hv] at h
    simp only [Except.ok.injEq] at h
    exact ⟨vocab, rfl, h.symm⟩

/-- C4: the three term lists of a successful `compare_texts` are pairwise
disjoint.  Under `max_df = 0.95` with exactly two documents, every kept
term has document frequency 1, so common-bucket values are all zero (the
common bucket is empty) and the two unique buckets have disjoint supports. -/
theorem compare_texts_bucket_disjoint (jaSeg : String → List String)
    (text1 text2 : String) (top_terms : Nat) (r : CompareResult)
    (h : compare_texts jaSeg text1 text2 top_terms = .ok r) :
    List.Disjoint (r.common_terms.map Prod.fst) (r.doc1_unique_terms.map Prod.fst) ∧
    List.Disjoint (r.common_terms.map Prod.fst) (r.doc2_unique_terms.map Prod.fst) ∧
    List.Disjoint (r.doc1_unique_terms.map Prod.fst) (r.doc2_unique_terms.map Prod.fst) := by
  obtain ⟨vocab, hv, rfl⟩ := compare_texts_ok h
  have hx := fitVocab_pair_mem hv
  have hcommon : bucketList vocab
      (List.zipWith min (vocab.map (fun t => (docTerms jaSeg text1).count t))
        (vocab.map (fun t => (docTerms jaSeg text2).count t))) top_terms = [] := by
    unfold bucketList
    refine List.filter_eq_nil_iff.2 ?_
    intro p hp
    have hp2 := (mem_sortS _).1 ((List.take_sublist _ _).subset hp)
    rw [zipWith_map_same, zip_self_map] at hp2
    rcases List.mem_map.1 hp2 with ⟨t, ht, rfl⟩
    have hzero : min ((docTerms jaSeg text1).count t) ((docTerms jaSeg text2).count t) = 0 := by
      rcases hx t ht with ⟨-, h2⟩ | ⟨-, h1⟩
      · rw [List.count_eq_zero.2 h2]
        simp
      · rw [List.count_eq_zero.2 h1]
        simp
    simp [hzero]
  have hu1 : ∀ x ∈ (bucketList vocab
      (List.zipWith (fun a b => a - b)
        (vocab.map (fun t => (docTerms jaSeg text1).count t))
        (vocab.map (fun t => (docTerms jaSeg text2).count t))) top_terms).map Prod.fst,
      x ∈ docTerms jaSeg text1 ∧ x ∉ docTerms jaSeg text2 := by
    intro x hxm
    rcases List.mem_map.1 hxm with ⟨p, hp, rfl⟩
    obtain ⟨hpz, hpos⟩ := bucket_mem hp
    rw [zipWith_map_same, zip_self_map] at hpz
    rcases List.mem_map.1 hpz with ⟨t, ht, rfl⟩
    have hc1 : 0 < (docTerms jaSeg text1).count t := by
      simp only at hpos
      omega
    have htm : t ∈ docTerms jaSeg text1 := List.count_pos_iff.1 hc1
    rcases hx t ht with ⟨-, h2⟩ | ⟨h2, h1⟩
    · exact ⟨htm, h2⟩
    · exact absurd htm h1
  have hu2 : ∀ x ∈ (bucketList vocab
      (List.zipWith (fun a b => a - b)
        (vocab.map (fun t => (docTerms jaSeg text2).count t))
        (vocab.map (fun t => (docTerms jaSeg text1).count t))) top_terms).map Prod.fst,
      x ∈ docTerms jaSeg text2 ∧ x ∉ docTerms jaSeg text1 := by
    intro x hxm
    rcases List.mem_map.1 hxm with ⟨p, hp, rfl⟩
    obtain ⟨hpz, hpos⟩ := bucket_mem hp
    rw [zipWith_map_same, zip_self_map] at hpz
    rcases List.mem_map.1 hpz with ⟨t, ht, rfl⟩
    have hc2 : 0 < (docTerms jaSeg text2).count t := by
      simp only at hpos
      omega
    have htm : t ∈ docTerms jaSeg text2 := List.count_pos_iff.1 hc2
    rcases hx t ht with ⟨h1, h2⟩ | ⟨-, h1⟩
    · exact absurd htm h2
    · exact ⟨htm, h1⟩
  refine ⟨?_, ?_, ?_⟩
  · dsimp only
    rw [hcommon]
    intro x hxc
    simp at hxc
  · dsimp only
    rw [hcommon]
    intro x hxc
    simp at hxc
  · dsimp only
    intro x hx1 hx2
    exact (hu1 x hx1).2 (hu2 x hx2).1

/-- Witness for `compare_texts_bucket_disjoint` at a concrete pair of texts
on which `compare_texts` succeeds. -/
theorem compare_texts_bucket_disjoint_witness :
    List.Disjoint
      ((CompareResult.mk 0 [] [("alpha", 1), ("beta", 1), ("alpha beta", 1)]
        [("gamma", 1), ("delta", 1), ("gamma delta", 1)]).common_terms.map Prod.fst)
      ((CompareResult.mk 0 [] [("alpha", 1), ("beta", 1), ("alpha beta", 1)]
        [("gamma", 1), ("delta", 1), ("gamma delta", 1)]).doc1_unique_terms.map Prod.fst) ∧
    List.Disjoint
      ((CompareResult.mk 0 [] [("alpha", 1), ("beta", 1), ("alpha beta", 1)]
        [("gamma", 1), ("delta", 1), ("gamma delta", 1)]).common_terms.map Prod.fst)
      ((CompareResult.mk 0 [] [("alpha", 1), ("beta", 1), ("alpha beta", 1)]
        [("gamma", 1), ("delta", 1), ("gamma delta", 1)]).doc2_unique_terms.map Prod.fst) ∧
    List.Disjoint
      ((CompareResult.mk 0 [] [("alpha", 1), ("beta", 1), ("alpha beta", 1)]
        [("gamma", 1), ("delta", 1), ("gamma delta", 1)]).doc1_unique_terms.map Prod.fst)
      ((CompareResult.mk 0 [] [("alpha", 1), ("beta", 1), ("alpha beta", 1)]
        [("gamma", 1), ("delta", 1), ("gamma delta", 1)]).doc2_unique_terms.map Prod.fst) :=
  compare_texts_bucket_disjoint jaSeg0 "alpha beta" "gamma delta" 15
    (CompareResult.mk 0 [] [("alpha", 1), ("beta", 1), ("alpha beta", 1)]
      [("gamma", 1), ("delta", 1), ("gamma delta", 1)])
    (by
      have hfv : fitVocab [docTerms jaSeg0 "alpha beta", docTerms jaSeg0 "gamma delta"] =
          .ok ["alpha", "beta", "alpha beta", "gamma", "delta", "gamma delta"] := by decide
      simp only [compare_texts, hfv, Except.ok.injEq, CompareResult.mk.injEq]
      exact ⟨cosineSimSq_eq_zero (by decide), by decide, by decide, by decide⟩)

/-! ### Success and failure of `compare_texts` (C3, C1, C2) -/

lemma except_isOk_iff {ε α : Type} (e : Except ε α) :
    e.isOk = true ↔ ∃ a, e = .ok a := by
  cases e <;> simp [Except.isOk, Except.toBool]

lemma fitVocab_pair_ok_iff (d1 d2 : List String) :
    (∃ v, fitVocab [d1, d2] = .ok v) ↔
      ∃ t, (t ∈ d1 ∧ t ∉ d2) ∨ (t ∈ d2 ∧ t ∉ d1) := by
  constructor
  · rintro ⟨v, hv⟩
    have hne : v ≠ [] := by
      rw [fitVocab_eq] at hv
      split at hv
      · simp at hv
      · split at hv
        · simp at hv
        · next hkept =>
          injection hv with hv
          rw [← hv]
          exact hkept
    cases hvv : v with
    | nil => exact absurd hvv hne
    | cons t ts =>
      exact ⟨t, fitVocab_pair_mem hv t (by rw [hvv]; simp)⟩
  · rintro ⟨t, ht⟩
    have htmem : t ∈ ([d1, d2] : List (List String)).flatten := by
      rcases ht with ⟨h1, -⟩ | ⟨h2, -⟩ <;>
        · rw [List.mem_flatten]
          first
          | exact ⟨d1, by simp, by assumption⟩
          | exact ⟨d2, by simp, by assumption⟩
    have hdf : df t [d1, d2] = 1 := by
      rw [df_pair]
      rcases ht with ⟨h1, h2⟩ | ⟨h2, h1⟩ <;> simp [h1, h2]
    have hkmem : t ∈ ([d1, d2] : List (List String)).flatten.dedup.filter
        (fun t => decide (1 ≤ df t [d1, d2]) &&
          decide (100 * df t [d1, d2] ≤ 95 * ([d1, d2] : List (List String)).length)) := by
      rw [List.mem_filter]
      refine ⟨List.mem_dedup.2 htmem, ?_⟩
      rw [hdf]
      simp
    rw [fitVocab_eq]
    rw [if_neg (List.ne_nil_of_mem (List.mem_dedup.2 htmem)),
      if_neg (List.ne_nil_of_mem hkmem)]
    exact ⟨_, rfl⟩

/-- C3 (amended): `compare_texts` succeeds iff some extracted term
(unigram or bigram) occurs in exactly one of the two texts; otherwise —
in particular when both texts tokenize to nothing, or the two texts share
every term (all pruned by `max_df = 0.95`) — the underlying vectorizer
raises a `ValueError` rather than degrading to empty outputs.  (When only
one text tokenizes to nothing and the other has terms, the call succeeds
gracefully.) -/
theorem compare_texts_success_iff (jaSeg : String → List String)
    (text1 text2 : String) (top_terms : Nat) :
    (compare_texts jaSeg text1 text2 top_terms).isOk = true ↔
      ∃ t, (t ∈ docTerms jaSeg text1 ∧ t ∉ docTerms jaSeg text2) ∨
           (t ∈ docTerms jaSeg text2 ∧ t ∉ docTerms jaSeg text1) := by
  constructor
  · intro h
    rcases (except_isOk_iff _).1 h with ⟨r, hr⟩
    obtain ⟨v, hv, -⟩ := compare_texts_ok hr
    exact (fitVocab_pair_ok_iff _ _).1 ⟨v, hv⟩
  · intro ht
    rcases (fitVocab_pair_ok_iff _ _).2 ht with ⟨v, hv⟩
    rw [compare_texts_eq, hv]
    rfl

/-- Witness for `compare_texts_success_iff`: with one empty text and one
text that has terms, `compare_texts` succeeds (no exception). -/
theorem compare_texts_success_iff_witness :
    (compare_texts jaSeg0 "alpha beta" "" 15).isOk = true :=
  (compare_texts_success_iff jaSeg0 "alpha beta" "" 15).2
    ⟨"alpha", Or.inl ⟨by decide, by decide⟩⟩

/-- C3 (counterexample to the claim as stated): with both texts empty —
both tokenize to nothing — `compare_texts` raises the vectorizer's
`empty vocabulary` `ValueError` instead of returning empty term lists. -/
theorem compare_texts_empty_raises :
    compare_texts jaSeg0 "" "" 15 = .error .emptyVocabulary := by decide

/-! ### Cauchy–Schwarz over the term-frequency vectors (C1, C9) -/

lemma normSqQ_nil : normSqQ [] = 0 := rfl

lemma normSqQ_cons (x : ℚ) (xs : List ℚ) : normSqQ (x :: xs) = x * x + normSqQ xs := rfl

lemma normSqQ_nonneg (v : List ℚ) : 0 ≤ normSqQ v := by
  induction v with
  | nil => simp [normSqQ_nil]
  | cons x xs ih =>
    rw [normSqQ_cons]
    have := mul_self_nonneg x
    linarith

lemma dotQ_sq_le (v : List ℚ) : ∀ (w : List ℚ), dotQ v w ^ 2 ≤ normSqQ v * normSqQ w := by
  induction v with
  | nil =>
    intro w
    show (0 : ℚ) ^ 2 ≤ normSqQ [] * normSqQ w
    simp [normSqQ_nil]
  | cons x xs ih =>
    intro w
    cases w with
    | nil =>
      show (0 : ℚ) ^ 2 ≤ normSqQ (x :: xs) * normSqQ []
      simp [normSqQ_nil]
    | cons y ys =>
      have IH := ih ys
      have hp : 0 ≤ normSqQ xs := normSqQ_nonneg xs
      have hq : 0 ≤ normSqQ ys := normSqQ_nonneg ys
      show (x * y + dotQ xs ys) ^ 2 ≤ (x * x + normSqQ xs) * (y * y + normSqQ ys)
      rcases eq_or_lt_of_le hq with hq0 | hqpos
      · have hsq : dotQ xs ys ^ 2 = 0 := by
          have h1 : dotQ xs ys ^ 2 ≤ 0 := by
            calc dotQ xs ys ^ 2 ≤ normSqQ xs * normSqQ ys := IH
            _ = 0 := by rw [← hq0, mul_zero]
          exact le_antisymm h1 (sq_nonneg _)
        have hd0 : dotQ xs ys = 0 := (pow_eq_zero_iff (by norm_num)).1 hsq
        rw [hd0, ← hq0]
        nlinarith [mul_nonneg hp (mul_self_nonneg y), sq_nonneg (x * y)]
      · nlinarith [sq_nonneg (x * normSqQ ys - y * dotQ xs ys),
          mul_nonneg (add_nonneg (mul_self_nonneg y) hq) (sub_nonneg.2 IH),
          hqpos, hp]

lemma dotN_cast (v : List Nat) : ∀ (w : List Nat),
    ((dotN v w : Nat) : ℚ) = dotQ (v.map (Nat.cast : Nat → ℚ)) (w.map Nat.cast) := by
  induction v with
  | nil => intro w; cases w <;> simp [dotN, dotQ]
  | cons x xs ih =>
    intro w
    cases w with
    | nil => simp [dotN, dotQ]
    | cons y ys =>
      show ((x * y + dotN xs ys : Nat) : ℚ) = (x : ℚ) * y + dotQ (xs.map Nat.cast) (ys.map Nat.cast)
      push_cast
      rw [ih ys]

lemma dotN_sq_le (v w : List Nat) : dotN v w ^ 2 ≤ dotN v v * dotN w w := by
  have h := dotQ_sq_le (v.map (Nat.cast : Nat → ℚ)) (w.map Nat.cast)
  rw [show normSqQ (v.map (Nat.cast : Nat → ℚ)) = dotQ (v.map Nat.cast) (v.map Nat.cast) from rfl,
    show normSqQ (w.map (Nat.cast : Nat → ℚ)) = dotQ (w.map Nat.cast) (w.map Nat.cast) from rfl,
    ← dotN_cast, ← dotN_cast, ← dotN_cast] at h
  exact_mod_cast h

lemma cosineSimSq_bounds (v w : List Nat) :
    0 ≤ cosineSimSq (dotN v w) (dotN v v) (dotN w w) ∧
    cosineSimSq (dotN v w) (dotN v v) (dotN w w) ≤ 1 := by
  unfold cosineSimSq
  split
  · norm_num
  · next hcond =>
    push_neg at hcond
    have h1 : (0 : ℚ) < (dotN v v : ℚ) :=
      by exact_mod_cast Nat.pos_of_ne_zero hcond.1
    have h2 : (0 : ℚ) < (dotN w w : ℚ) :=
      by exact_mod_cast Nat.pos_of_ne_zero hcond.2
    constructor
    · positivity
    · rw [div_le_one (by positivity)]
      exact_mod_cast dotN_sq_le v w

/-- C1: whenever `compare_texts` succeeds, its (squared) similarity lies in
`[0, 1]` — the similarity itself is the non-negative square root, so the
claimed bounds `0 ≤ similarity ≤ 1 (+ε)` hold exactly in ideal arithmetic.
But the self-similarity half of the claim fails: for the non-empty text
`"the cat sat on the mat"`, `compare_texts(t, t)` does not return a
similarity at all — every term has document frequency 2 and is pruned by
`max_df = 0.95`, so the vectorizer raises `After pruning, no terms remain`. -/
theorem compare_similarity_bounds_and_self_raises :
    (∀ (jaSeg : String → List String) (t1 t2 : String) (k : Nat) (r : CompareResult),
      compare_texts jaSeg t1 t2 k = .ok r →
        0 ≤ r.similaritySq ∧ r.similaritySq ≤ 1) ∧
    compare_texts jaSeg0 "the cat sat on the mat" "the cat sat on the mat" 15 =
      .error .noTermsRemain := by
  constructor
  · intro jaSeg t1 t2 k r h
    obtain ⟨vocab, -, rfl⟩ := compare_texts_ok h
    exact cosineSimSq_bounds _ _
  · decide

/-- Witness for `compare_similarity_bounds_and_self_raises`: the bounds
conjunct applied to a concrete successful comparison. -/
theorem compare_similarity_bounds_witness :
    0 ≤ (CompareResult.mk 0 [] [("alpha", 1), ("beta", 1), ("alpha beta", 1)]
      [("gamma", 1), ("delta", 1), ("gamma delta", 1)]).similaritySq ∧
    (CompareResult.mk 0 [] [("alpha", 1), ("beta", 1), ("alpha beta", 1)]
      [("gamma", 1), ("delta", 1), ("gamma delta", 1)]).similaritySq ≤ 1 :=
  compare_similarity_bounds_and_self_raises.1 jaSeg0 "alpha beta" "gamma delta" 15
    (CompareResult.mk 0 [] [("alpha", 1), ("beta", 1), ("alpha beta", 1)]
      [("gamma", 1), ("delta", 1), ("gamma delta", 1)])
    (by
      have hfv : fitVocab [docTerms jaSeg0 "alpha beta", docTerms jaSeg0 "gamma delta"] =
          .ok ["alpha", "beta", "alpha beta", "gamma", "delta", "gamma delta"] := by decide
      simp only [compare_texts, hfv, Except.ok.injEq, CompareResult.mk.injEq]
      exact ⟨cosineSimSq_eq_zero (by decide), by decide, by decide, by decide⟩)

/-- C2: evaluation of `compare_texts` at the spec's scenario
`compare("the cat sat on the mat", "the dog sat on the mat")`.
With two documents, `max_df = 0.95` keeps only terms with document
frequency at most `0.95 * 2 = 1.9`, so `"sat"`, `"mat"` and `"sat mat"`
(df = 2) are pruned from the vocabulary: the similarity is 0 (not > 0)
and the common bucket is empty ("sat"/"mat" appear in no bucket), while
"cat"-terms land in the doc1-unique bucket and "dog"-terms in the
doc2-unique bucket as claimed. -/
theorem compare_cat_dog_eval :
    compare_texts jaSeg0 "the cat sat on the mat" "the dog sat on the mat" 15 =
      .ok { similaritySq := 0, common_terms := [],
            doc1_unique_terms := [("cat", 1), ("cat sat", 1)],
            doc2_unique_terms := [("dog", 1), ("dog sat", 1)] } := by
  have hfv : fitVocab [docTerms jaSeg0 "the cat sat on the mat",
      docTerms jaSeg0 "the dog sat on the mat"] =
      .ok ["cat", "cat sat", "dog", "dog sat"] := by decide
  simp only [compare_texts, hfv, Except.ok.injEq, CompareResult.mk.injEq]
  exact ⟨cosineSimSq_eq_zero (by decide), by decide, by decide, by decide⟩

/-- C8: evaluation of `render_dot` on a node whose label contains a quote.
The source line `safe = nd.label.replace('"', '\"')` replaces a quote with
a quote (in Python `'\"'` IS the one-character string `"`), so the label
is embedded unescaped and the emitted line `D0 [label="a"b"];` is
malformed graph-description output.  The second conjunct shows the
escaping call is the identity on the label. -/
theorem render_dot_unescaped_quote :
    render_dot (fun _ => "") [Node.mk 0 "a\"b"] [] =
      "graph G \x7b\n  graph [overlap=false, splines=true];\n  node [shape=box];\n  D0 [label=\"a\"b\"];\n\x7d" ∧
    pyReplace "a\"b" quoteCh (String.mk [quoteCh]) = "a\"b" := by
  constructor <;> decide

/-! ### Pairwise similarity matrix (C9) -/

lemma dotQ_comm : ∀ (v w : List ℚ), dotQ v w = dotQ w v := by
  intro v
  induction v with
  | nil => intro w; cases w <;> rfl
  | cons x xs ih =>
    intro w
    cases w with
    | nil => rfl
    | cons y ys =>
      show x * y + dotQ xs ys = y * x + dotQ ys xs
      rw [ih ys, mul_comm]

lemma dotQ_nonneg : ∀ (v w : List ℚ), (∀ x ∈ v, 0 ≤ x) → (∀ x ∈ w, 0 ≤ x) →
    0 ≤ dotQ v w := by
  intro v
  induction v with
  | nil => intro w _ _; cases w <;> norm_num [dotQ]
  | cons x xs ih =>
    intro w hv hw
    cases w with
    | nil => norm_num [dotQ]
    | cons y ys =>
      show 0 ≤ x * y + dotQ xs ys
      have h1 : 0 ≤ x * y := mul_nonneg (hv x (by simp)) (hw y (by simp))
      have h2 : 0 ≤ dotQ xs ys :=
        ih ys (fun z hz => hv z (by simp [hz])) (fun z hz => hw z (by simp [hz]))
      linarith

lemma rowsOf_entries_nonneg {idf : String → ℚ} (hidf : ∀ t, 0 < idf t)
    (vocab : List String) (docs : List (List String)) :
    ∀ i, ∀ x ∈ (rowsOf idf vocab docs).getD i [], 0 ≤ x := by
  intro i x hx
  rw [List.getD_eq_getElem?_getD] at hx
  cases hrow : (rowsOf idf vocab docs)[i]? with
  | none =>
    rw [hrow] at hx
    simp at hx
  | some row =>
    rw [hrow] at hx
    simp only [Option.getD_some] at hx
    have hrm : row ∈ rowsOf idf vocab docs := mem_of_getElemOpt hrow
    unfold rowsOf at hrm
    rcases List.mem_map.1 hrm with ⟨d, -, rfl⟩
    rcases List.mem_map.1 hx with ⟨t, -, rfl⟩
    exact mul_nonneg (Nat.cast_nonneg _) (le_of_lt (hidf t))

lemma pairwise_simSq_eq (rows : List (List ℚ)) (i j : Nat) :
    pairwise_simSq rows i j =
      if normSqQ (rows.getD i []) = 0 ∨ normSqQ (rows.getD j []) = 0 then 0
      else dotQ (rows.getD i []) (rows.getD j []) ^ 2 /
        (normSqQ (rows.getD i []) * normSqQ (rows.getD j [])) :=
  rfl

lemma pairwise_matrixSq_eq (jaSeg : String → List String) (idf : String → ℚ)
    (texts : List String) :
    pairwise_matrixSq jaSeg idf texts =
      (match fitVocab (texts.map (docTerms jaSeg)) with
        | .error e => (.error e : Except VecError (List (List ℚ)))
        | .ok vocab => .ok ((List.range texts.length).map (fun i =>
            (List.range texts.length).map (fun j =>
              pairwise_simSq (rowsOf idf vocab (texts.map (docTerms jaSeg))) i j)))) :=
  rfl

lemma pairwise_simSq_props (rows : List (List ℚ))
    (hnn : ∀ i, ∀ x ∈ rows.getD i [], 0 ≤ x) :
    (∀ i j, pairwise_simSq rows i j = pairwise_simSq rows j i) ∧
    (∀ i j, 0 ≤ dotQ (rows.getD i []) (rows.getD j []) ∧
            0 ≤ pairwise_simSq rows i j ∧ pairwise_simSq rows i j ≤ 1) ∧
    (∀ i, normSqQ (rows.getD i []) ≠ 0 → pairwise_simSq rows i i = 1) := by
  refine ⟨?_, ?_, ?_⟩
  · intro i j
    rw [pairwise_simSq_eq, pairwise_simSq_eq]
    by_cases h1 : normSqQ (rows.getD i []) = 0
    · rw [if_pos (Or.inl h1), if_pos (Or.inr h1)]
    · by_cases h2 : normSqQ (rows.getD j []) = 0
      · rw [if_pos (Or.inr h2), if_pos (Or.inl h2)]
      · rw [if_neg (fun h => h.elim h1 h2), if_neg (fun h => h.elim h2 h1),
          dotQ_comm (rows.getD i []) (rows.getD j []),
          mul_comm (normSqQ (rows.getD i [])) (normSqQ (rows.getD j []))]
  · intro i j
    refine ⟨dotQ_nonneg _ _ (hnn i) (hnn j), ?_, ?_⟩
    · rw [pairwise_simSq_eq]
      split
      · norm_num
      · exact div_nonneg (sq_nonneg _)
          (mul_nonneg (normSqQ_nonneg _) (normSqQ_nonneg _))
    · rw [pairwise_simSq_eq]
      split
      · norm_num
      · next hcond =>
        push_neg at hcond
        have hp1 : 0 < normSqQ (rows.getD i []) :=
          lt_of_le_of_ne (normSqQ_nonneg _) (Ne.symm hcond.1)
        have hp2 : 0 < normSqQ (rows.getD j []) :=
          lt_of_le_of_ne (normSqQ_nonneg _) (Ne.symm hcond.2)
        rw [div_le_one (mul_pos hp1 hp2)]
        exact dotQ_sq_le _ _
  · intro i hne
    rw [pairwise_simSq_eq, if_neg (fun h => h.elim hne hne),
      show dotQ (rows.getD i []) (rows.getD i []) = normSqQ (rows.getD i []) from rfl,
      pow_two]
    exact div_self (mul_ne_zero hne hne)

/-- C9 (amended): on a successful `pairwise_similarity` call, the matrix is
the square `N×N` table of entries `S i j = √(pairwise_simSq rows i j)`
(non-negative square root; see `cosineSimSq`).  In squared, square-root-free
form: the matrix is symmetric with entries in `[0, 1]` (together with
`0 ≤ dot`, this pins `S i j ∈ [0, 1]`), and the diagonal entry is 1 for
every text whose TF-IDF row is nonzero.  A text with no surviving terms has
a zero row and diagonal entry 0, not 1 (see `pairwise_zero_diagonal`). -/
theorem pairwise_matrix_props (jaSeg : String → List String) (idf : String → ℚ)
    (texts : List String) (vocab : List String)
    (hidf : ∀ t, 0 < idf t)
    (hv : fitVocab (texts.map (docTerms jaSeg)) = .ok vocab) :
    pairwise_matrixSq jaSeg idf texts =
      .ok ((List.range texts.length).map (fun i => (List.range texts.length).map (fun j =>
        pairwise_simSq (rowsOf idf vocab (texts.map (docTerms jaSeg))) i j))) ∧
    ((List.range texts.length).map (fun i => (List.range texts.length).map (fun j =>
        pairwise_simSq (rowsOf idf vocab (texts.map (docTerms jaSeg))) i j))).length
      = texts.length ∧
    (∀ row ∈ (List.range texts.length).map (fun i => (List.range texts.length).map (fun j =>
        pairwise_simSq (rowsOf idf vocab (texts.map (docTerms jaSeg))) i j)),
      row.length = texts.length) ∧
    (∀ i j, pairwise_simSq (rowsOf idf vocab (texts.map (docTerms jaSeg))) i j =
            pairwise_simSq (rowsOf idf vocab (texts.map (docTerms jaSeg))) j i) ∧
    (∀ i j, 0 ≤ dotQ ((rowsOf idf vocab (texts.map (docTerms jaSeg))).getD i [])
                     ((rowsOf idf vocab (texts.map (docTerms jaSeg))).getD j []) ∧
            0 ≤ pairwise_simSq (rowsOf idf vocab (texts.map (docTerms jaSeg))) i j ∧
            pairwise_simSq (rowsOf idf vocab (texts.map (docTerms jaSeg))) i j ≤ 1) ∧
    (∀ i, normSqQ ((rowsOf idf vocab (texts.map (docTerms jaSeg))).getD i []) ≠ 0 →
      pairwise_simSq (rowsOf idf vocab (texts.map (docTerms jaSeg))) i i = 1) := by
  obtain ⟨hsymm, hbounds, hdiag⟩ :=
    pairwise_simSq_props (rowsOf idf vocab (texts.map (docTerms jaSeg)))
      (rowsOf_entries_nonneg hidf vocab (texts.map (docTerms jaSeg)))
  refine ⟨?_, ?_, ?_, hsymm, hbounds, hdiag⟩
  · rw [pairwise_matrixSq_eq, hv]
  · rw [List.length_map, List.length_range]
  · intro row hrow
    rcases List.mem_map.1 hrow with ⟨i, -, rfl⟩
    rw [List.length_map, List.length_range]

/-- Witness for `pairwise_matrix_props`: the matrix-shape conjunct at a
concrete succeeding two-text corpus with unit IDF weights. -/
theorem pairwise_matrix_props_witness :
    pairwise_matrixSq jaSeg0 (fun _ => 1) ["aaa bbb", "ccc ddd"] =
      .ok ((List.range (["aaa bbb", "ccc ddd"] : List String).length).map (fun i =>
        (List.range (["aaa bbb", "ccc ddd"] : List String).length).map (fun j =>
          pairwise_simSq (rowsOf (fun _ => 1)
            ["aaa", "bbb", "aaa bbb", "ccc", "ddd", "ccc ddd"]
            ((["aaa bbb", "ccc ddd"] : List String).map (docTerms jaSeg0))) i j))) :=
  (pairwise_matrix_props jaSeg0 (fun _ => 1) ["aaa bbb", "ccc ddd"]
    ["aaa", "bbb", "aaa bbb", "ccc", "ddd", "ccc ddd"]
    (fun _ => by norm_num) (by decide)).1

/-- C9 (counterexample to the claim as stated): the corpus
`["aaa bbb", "the"]` is accepted by the vectorizer (the first text has
terms of document frequency 1), so `pairwise_similarity` succeeds and
returns the table of `pairwise_simSq` entries — but the second text
tokenizes to nothing, its TF-IDF row is zero, and the diagonal entry
`(1, 1)` of the matrix is 0, not 1.0. -/
theorem pairwise_zero_diagonal :
    pairwise_matrixSq jaSeg0 (fun _ => 1) ["aaa bbb", "the"] =
      .ok ((List.range (["aaa bbb", "the"] : List String).length).map (fun i =>
        (List.range (["aaa bbb", "the"] : List String).length).map (fun j =>
          pairwise_simSq (rowsOf (fun _ => 1) ["aaa", "bbb", "aaa bbb"]
            ((["aaa bbb", "the"] : List String).map (docTerms jaSeg0))) i j))) ∧
    pairwise_simSq (rowsOf (fun _ => 1) ["aaa", "bbb", "aaa bbb"]
      ((["aaa bbb", "the"] : List String).map (docTerms jaSeg0))) 1 1 = 0 := by
  have hv : fitVocab ((["aaa bbb", "the"] : List String).map (docTerms jaSeg0)) =
      .ok ["aaa", "bbb", "aaa bbb"] := by decide
  constructor
  · rw [pairwise_matrixSq_eq, hv]
  · have hd : docTerms jaSeg0 "the" = ([] : List String) := by decide
    have hrow : (rowsOf (fun _ => (1 : ℚ)) ["aaa", "bbb", "aaa bbb"]
        ((["aaa bbb", "the"] : List String).map (docTerms jaSeg0))).getD 1 [] =
        [0, 0, 0] := by
      unfold rowsOf
      simp [hd, List.count_nil]
    rw [pairwise_simSq_eq, hrow]
    rw [if_pos (Or.inr (by norm_num [normSqQ_cons, normSqQ_nil]))]

end Paperbox
